import Mathlib

/-!
# Verification of the knight's-tour board core (`CBaseBoard`, BaseBoard.cpp)

Shallow embedding of the move-table board of `BaseBoard.cpp`.  A board is a
`w × h` grid with a primary move table and an optional secondary move table;
the secondary table's presence is the directedness flag, exactly as in the
source (`m_nMove2 == nullptr` iff undirected).

Modelling conventions:
* C++ `int` cell values are Lean `Int`; the sentinel `UNUSED` is `-1`.
* The C arrays `m_nMove` / `m_nMove2` are modelled as total maps `Int → Int`;
  the program reads them only at indices `0 ≤ i < w*h` (all accesses in the
  verified operations are guarded by `CellIndexInRange` or by loop bounds, as
  in the source), so the maps restricted to that range model the arrays.
  Reading `m_nMove2` on an undirected board is a null dereference in C++; the
  helper `m2get` returns `UNUSED` there and no theorem relies on that path.
* `assert(...)` statements compile to nothing under `NDEBUG`; the operations
  are modelled without them, and the predicate asserted by `IsUnused` is kept
  separately as `isUnusedAssertPred` so that statements about the assertion
  itself can be made.
* C++ `%` and `/` on `int` agree with `Int.emod` / `Int.ediv` on the
  nonnegative operands that in-range cell indices produce (the source mixes
  `int` with the `unsigned` width, which also agrees on that range).
-/

/-- The sentinel `UNUSED = -1` of the source (`Defines.h`). -/
def UNUSED : Int := -1

/-- A `CBaseBoard`: width, height, primary move table, and the optional
secondary move table whose presence is the directedness flag. -/
structure Board where
  w : Nat
  h : Nat
  m : Int → Int
  m2 : Option (Int → Int)

/-- `m_nSize = m_nWidth * m_nHeight`. -/
def Board.size (b : Board) : Nat := b.w * b.h

/-- `CBaseBoard::CellIndexInRange`: `0 <= index && index < (int)m_nSize`. -/
def CellIndexInRange (b : Board) (index : Int) : Bool :=
  decide (0 ≤ index ∧ index < (b.size : Int))

/-- `CBaseBoard::InRangeX`: `0 <= x && x < (int)m_nWidth`. -/
def InRangeX (b : Board) (x : Int) : Bool :=
  decide (0 ≤ x ∧ x < (b.w : Int))

/-- `CBaseBoard::InRangeY`: `0 <= y && y < (int)m_nHeight`. -/
def InRangeY (b : Board) (y : Int) : Bool :=
  decide (0 ≤ y ∧ y < (b.h : Int))

/-- `CBaseBoard::IsUndirected`: true iff `m_nMove2 == nullptr`. -/
def Board.IsUndirected (b : Board) : Bool := b.m2.isNone

/-- `CBaseBoard::IsDirected`: `!IsUndirected()`. -/
def Board.IsDirected (b : Board) : Bool := !b.IsUndirected

/-- Read of `m_nMove2[i]`.  On an undirected board this is a null dereference
in C++ (never exercised by the verified theorems); modelled as `UNUSED`. -/
def m2get (b : Board) (i : Int) : Int :=
  match b.m2 with
  | some t => t i
  | none => UNUSED

/-- Write `m_nMove[i] = v`. -/
def primSet (b : Board) (i v : Int) : Board :=
  { b with m := fun j => if j = i then v else b.m j }

/-- Write `m_nMove2[i] = v` (no-op when the secondary table is absent; the
source only performs this write on directed boards). -/
def secSet (b : Board) (i v : Int) : Board :=
  { b with m2 :=
      match b.m2 with
      | some t => some (fun j => if j = i then v else t j)
      | none => none }

/-- `CBaseBoard::operator[]` / `GetMove`: out-of-range index reported as
`UNUSED`, in-range index returns the primary table entry. -/
def getMove (b : Board) (index : Int) : Int :=
  if CellIndexInRange b index = true then b.m index else UNUSED

/-- `CBaseBoard::IsUnused(int)`: in-range and primary slot equal to
`UNUSED` (out-of-range cells are reported as used). -/
def IsUnused (b : Board) (index : Int) : Bool :=
  CellIndexInRange b index && decide (b.m index = UNUSED)

/-- The predicate asserted at the top of `CBaseBoard::IsUnused(int)`
(BaseBoard.cpp line 161): `assert(IsDirected())`. -/
def isUnusedAssertPred (b : Board) : Bool := b.IsDirected

/-- `CBaseBoard::IsMove`: both indices in range and one of the up to four
table slots links them. -/
def IsMove (b : Board) (i j : Int) : Bool :=
  CellIndexInRange b i && CellIndexInRange b j &&
    (decide (b.m i = j) || decide (m2get b i = j) ||
     decide (b.m j = i) || decide (m2get b j = i))

/-- Modelled from the spec: the external move-delta table `g_vecDeltas`
(declared `extern` in BaseBoard.cpp, defined outside the provided sources).
Spec §6: "an ordered sequence of 8 `(dx,dy)` knight-move offsets in the fixed
canonical order matching `GetMoveIndex`'s mapping", i.e. index 0 ↦ (2,-1),
1 ↦ (1,-2), 2 ↦ (-1,-2), 3 ↦ (-2,-1), 4 ↦ (-2,1), 5 ↦ (-1,2), 6 ↦ (1,2),
7 ↦ (2,1). -/
def g_vecDeltas : List (Int × Int) :=
  [(2, -1), (1, -2), (-1, -2), (-2, -1), (-2, 1), (-1, 2), (1, 2), (2, 1)]

/-- `CBaseBoard::GetDest`: destination of applying a move delta to cell `i`,
or `UNUSED` if it leaves the board. -/
def GetDest (b : Board) (i : Int) (delta : Int × Int) : Int :=
  let x := i % (b.w : Int) + delta.1
  let y := i / (b.w : Int) + delta.2
  if InRangeX b x = true ∧ InRangeY b y = true then y * (b.w : Int) + x
  else UNUSED

/-- `CBaseBoard::GetMoveIndex`: canonical move index of the displacement from
`src` to `dest`, or `UNUSED` if it is not a knight's move (the `switch` on
`dx` with nested tests on `dy`). -/
def GetMoveIndex (b : Board) (src dest : Int) : Int :=
  let dx := dest % (b.w : Int) - src % (b.w : Int)
  let dy := dest / (b.w : Int) - src / (b.w : Int)
  if dx = -2 then (if dy = -1 then 3 else if dy = 1 then 4 else UNUSED)
  else if dx = -1 then (if dy = -2 then 2 else if dy = 2 then 5 else UNUSED)
  else if dx = 1 then (if dy = -2 then 1 else if dy = 2 then 6 else UNUSED)
  else if dx = 2 then (if dy = -1 then 0 else if dy = 1 then 7 else UNUSED)
  else UNUSED

/-- `CBaseBoard::InsertUndirectedMove`: store the edge in `m_nMove[src]` if
free (`< 0`), else in `m_nMove[dest]` if free, else fail. -/
def InsertUndirectedMove (b : Board) (src dest : Int) : Board × Bool :=
  if b.m src < 0 then (primSet b src dest, true)
  else if b.m dest < 0 then (primSet b dest src, true)
  else (b, false)

/-- Second half of `CBaseBoard::InsertDirectedMove`: the bookkeeping write at
`dest`, performed on the board already holding the `src` write. -/
def insDirAtDest (b1 : Board) (src dest : Int) : Board × Bool :=
  if b1.m dest < 0 then (primSet b1 dest src, true)
  else if m2get b1 dest < 0 then (secSet b1 dest src, true)
  else (b1, false)

/-- `CBaseBoard::InsertDirectedMove`: write `dest` into `src`'s primary slot
if free, else secondary slot if free, else fail; then the same preference
order at `dest` for the reverse bookkeeping. -/
def InsertDirectedMove (b : Board) (src dest : Int) : Board × Bool :=
  if b.m src < 0 then insDirAtDest (primSet b src dest) src dest
  else if m2get b src < 0 then insDirAtDest (secSet b src dest) src dest
  else (b, false)

/-- The two unconditional primary-table clears at the top of
`CBaseBoard::DeleteMove` (the second test reads the table after the first
clear, as in the source). -/
def primCleared (b : Board) (src dest : Int) : Board :=
  let b1 := if b.m src = dest then primSet b src UNUSED else b
  if b1.m dest = src then primSet b1 dest UNUSED else b1

/-- `CBaseBoard::DeleteMove`: clear matching primary slots unconditionally;
on a directed board additionally require `IsMove` (evaluated after those
clears) and clear matching secondary slots; undirected boards return true. -/
def DeleteMove (b : Board) (src dest : Int) : Board × Bool :=
  let b2 := primCleared b src dest
  if b2.IsDirected = true then
    if IsMove b2 src dest = false then (b2, false)
    else
      let b3 := if m2get b2 src = dest then secSet b2 src UNUSED else b2
      let b4 := if m2get b3 dest = src then secSet b3 dest UNUSED else b3
      (b4, true)
  else (b2, true)

/-- Loop of `CBaseBoard::IsTour`.  One unit of fuel per test of the loop
guard `count < m_nSize && CellIndexInRange(cur) && cur != 0`; since `count`
grows by one per iteration and starts at 1, fuel `m_nSize` always suffices to
reach the guard's failure, so the fueled function computes exactly the loop.
Returns `none` for the early `return false` (undirected backtrack), else the
final `(count, cur)`. -/
def isTourAux (b : Board) : Nat → Int → Int → Nat → Option (Nat × Int)
  | 0, _, cur, count => some (count, cur)
  | fuel + 1, prev, cur, count =>
    if count < b.size ∧ CellIndexInRange b cur = true ∧ cur ≠ 0 then
      let dest0 := b.m cur
      if dest0 = prev then
        if b.IsUndirected = true then none
        else isTourAux b fuel cur (m2get b cur) (count + 1)
      else isTourAux b fuel cur dest0 (count + 1)
    else some (count, cur)

/-- `CBaseBoard::IsTour`: start at `prev = 0`, `cur = m_nMove[0]`,
`count = 1`; after the loop, succeed iff `count == m_nSize && cur == 0`. -/
def IsTour (b : Board) : Bool :=
  match isTourAux b b.size 0 (b.m 0) 1 with
  | none => false
  | some (count, cur) => decide (count = b.size ∧ cur = 0)

/-- Modelled from the spec (§4.4): the walk of `IsTour` recorded as the list
of visited cells instead of a counter — "starting at cell 0, follow moves
(using whichever table slot differs from the previously-visited cell ...)".
Same guards and branches as `isTourAux`; the accumulator collects the visited
cells (most recent first), and the result also carries the cell at which the
walk stopped. -/
def specWalkAux (b : Board) : Nat → Int → Int → List Int → Option (List Int × Int)
  | 0, _, cur, acc => some (acc.reverse, cur)
  | fuel + 1, prev, cur, acc =>
    if acc.length < b.size ∧ CellIndexInRange b cur = true ∧ cur ≠ 0 then
      let dest0 := b.m cur
      if dest0 = prev then
        if b.IsUndirected = true then none
        else specWalkAux b fuel cur (m2get b cur) (cur :: acc)
      else specWalkAux b fuel cur dest0 (cur :: acc)
    else some (acc.reverse, cur)

/-- The spec-side walk of `IsTour`: visited cells (starting with cell 0) and
the cell at which the walk stopped; `none` when the undirected-backtrack
error fires. -/
def specTourWalk (b : Board) : Option (List Int × Int) :=
  specWalkAux b b.size 0 (b.m 0) [0]

/-- The walk makes exactly `n` visits and closes back to cell 0. -/
def TourWalkCloses (b : Board) : Prop :=
  ∃ p : List Int × Int, specTourWalk b = some p ∧
    p.1.length = b.size ∧ p.2 = 0

/-- The `n × 1` undirected board whose primary table encodes the cycle
`0 → 1 → ⋯ → (n-1) → 0`. -/
def cycleBoard (n : Nat) : Board :=
  { w := n, h := 1,
    m := fun i =>
      if i = (n : Int) - 1 then 0
      else if 0 ≤ i ∧ i < (n : Int) - 1 then i + 1
      else UNUSED,
    m2 := none }

/-- Increment `count[j]` (the count array of `IsTourney` as a map). -/
def bump (cnt : Int → Nat) (j : Int) : Int → Nat :=
  fun c => if c = j then cnt c + 1 else cnt c

/-- One iteration of the undirected counting loop of `CBaseBoard::IsTourney`:
while the all-used flag holds, a valid entry `m_nMove[i]` bumps `count[i]`
and `count[m_nMove[i]]`, an invalid one clears the flag (after which the
loop's `&& bAllCellsUsed` guard stops all further processing, modelled by the
step becoming the identity). -/
def tourneyStepU (b : Board) (s : (Int → Nat) × Bool) (i : Nat) : (Int → Nat) × Bool :=
  if s.2 = true then
    if CellIndexInRange b (b.m (((i : Nat) : Int))) = true then
      (bump (bump s.1 (((i : Nat) : Int))) (b.m (((i : Nat) : Int))), true)
    else (s.1, false)
  else s

/-- One iteration of the directed counting loop of `CBaseBoard::IsTourney`:
both `if` statements of the body run (a valid `m_nMove[i]` bumps
`count[m_nMove[i]]`, a valid `m_nMove2[i]` bumps `count[m_nMove2[i]]`, an
invalid entry clears the flag); the loop guard is re-tested only between
iterations. -/
def tourneyStepD (b : Board) (s : (Int → Nat) × Bool) (i : Nat) : (Int → Nat) × Bool :=
  if s.2 = true then
    let s1 : (Int → Nat) × Bool :=
      if CellIndexInRange b (b.m (((i : Nat) : Int))) = true then
        (bump s.1 (b.m (((i : Nat) : Int))), s.2)
      else (s.1, false)
    if CellIndexInRange b (m2get b (((i : Nat) : Int))) = true then
      (bump s1.1 (m2get b (((i : Nat) : Int))), s1.2)
    else (s1.1, false)
  else s

/-- `CBaseBoard::IsTourney`: accumulate the degree counts over all cells
(undirected or directed loop according to the mode), fail if some entry was
out of range, else succeed iff every cell's count is exactly 2. -/
def IsTourney (b : Board) : Bool :=
  let s := (List.range b.size).foldl
    (if b.IsUndirected = true then tourneyStepU b else tourneyStepD b)
    ((fun _ => 0 : Int → Nat), true)
  if s.2 = false then false
  else (List.range b.size).all (fun i => s.1 (((i : Nat) : Int)) == 2)

/-- All table entries scanned by `IsTourney` are in range ("all cells
used"). -/
def allCellsUsed (b : Board) : Bool :=
  if b.IsUndirected = true then
    (List.range b.size).all (fun i => CellIndexInRange b (b.m (((i : Nat) : Int))))
  else
    (List.range b.size).all (fun i =>
      CellIndexInRange b (b.m (((i : Nat) : Int))) &&
      CellIndexInRange b (m2get b (((i : Nat) : Int))))

/-- The degree that `IsTourney` computes for cell `c`: on an undirected board
each primary entry `(i, m[i])` contributes one at `i` and one at `m[i]`; on a
directed board each primary or secondary entry `(i, t[i])` contributes one at
the destination `t[i]` only. -/
def tourneyDeg (b : Board) (c : Int) : Nat :=
  if b.IsUndirected = true then
    ((List.range b.size).countP (fun i => ((i : Nat) : Int) == c)) +
    ((List.range b.size).countP (fun i => b.m (((i : Nat) : Int)) == c))
  else
    ((List.range b.size).countP (fun i => b.m (((i : Nat) : Int)) == c)) +
    ((List.range b.size).countP (fun i => m2get b (((i : Nat) : Int)) == c))

/-- The degree notion asserted by the claim for `IsTourney`: "the number of
incident recorded edges counted over both endpoints of every table entry" —
every primary (and, when directed, secondary) entry `(i, t[i])` contributes
one at `i` and one at `t[i]`. -/
def claimDeg (b : Board) (c : Int) : Nat :=
  (((List.range b.size).countP (fun i => ((i : Nat) : Int) == c)) +
   ((List.range b.size).countP (fun i => b.m (((i : Nat) : Int)) == c))) +
  (if b.IsUndirected = true then 0
   else ((List.range b.size).countP (fun i => ((i : Nat) : Int) == c)) +
        ((List.range b.size).countP (fun i => m2get b (((i : Nat) : Int)) == c)))

/-- One iteration of `CBaseBoard::MakeDirected`'s loop: if `m_nMove[i]` is a
valid cell, set the back-link `m_nMove2[m_nMove[i]] = i`. -/
def mdStep (b : Board) (t : Int → Int) (i : Nat) : Int → Int :=
  if CellIndexInRange b (b.m ((i : Nat) : Int)) = true then
    fun j => if j = b.m ((i : Nat) : Int) then ((i : Nat) : Int) else t j
  else t

/-- `CBaseBoard::MakeDirected`: if undirected, allocate the secondary table
(all `UNUSED`) and set the back-link `m_nMove2[m_nMove[i]] = i` for every
cell `i` with a valid primary destination. -/
def MakeDirected (b : Board) : Board :=
  if b.IsUndirected = true then
    { b with m2 := some ((List.range b.size).foldl (mdStep b)
        (fun _ => UNUSED)) }
  else b

/-- The component walk of `CBaseBoard::MakeUndirected`: follow the cycle from
`start`, writing `temp[prev] = cur` at each step and choosing whichever of
`m_nMove[cur]` / `m_nMove2[cur]` is not the immediate predecessor, until the
walk returns to `start` or leaves the valid range; then write the closing
`temp[prev] = cur` if both are in range.  The C++ `while` loop is unbounded;
one unit of fuel per guard test, and fuel `m_nSize` covers every terminating
run the verified theorems rely on (on a board produced by `MakeDirected` from
a tourney the walk closes within `m_nSize` steps; on other inputs the C++
loop does not terminate at all, and no theorem is stated about them). -/
def muWalk (b : Board) (start : Int) : Nat → Int → Int → (Int → Int) → (Int → Int)
  | 0, _, _, temp => temp
  | fuel + 1, prev, cur, temp =>
    if CellIndexInRange b cur = true ∧ cur ≠ start then
      let temp2 : Int → Int := fun c => if c = prev then cur else temp c
      let dest0 := if b.m cur = prev then m2get b cur else b.m cur
      muWalk b start fuel cur dest0 temp2
    else
      if CellIndexInRange b prev = true ∧ CellIndexInRange b cur = true then
        fun c => if c = prev then cur else temp c
      else temp

/-- One iteration of the outer loop of `CBaseBoard::MakeUndirected`: walk the
component of `start` if `temp[start]` is still `UNUSED`. -/
def muStep (b : Board) (temp : Int → Int) (start : Nat) : Int → Int :=
  if temp ((start : Nat) : Int) = UNUSED then
    muWalk b ((start : Nat) : Int) b.size ((start : Nat) : Int)
      (b.m ((start : Nat) : Int)) temp
  else temp

/-- `CBaseBoard::MakeUndirected`: on a directed board satisfying `IsTourney`,
rebuild the primary table from the component walks (starting from every cell
whose `temp` slot is still `UNUSED`) and drop the secondary table; otherwise
do nothing. -/
def MakeUndirected (b : Board) : Board :=
  if b.IsDirected = true ∧ IsTourney b = true then
    { b with m := (List.range b.size).foldl (muStep b) (fun _ => UNUSED),
             m2 := none }
  else b

/-- A `2 × 1` undirected board with every slot `UNUSED` (a freshly
constructed even board). -/
def bEmpty2 : Board :=
  { w := 2, h := 1, m := fun _ => UNUSED, m2 := none }

/-- A `2 × 1` directed board with every slot of both tables `UNUSED`
(`MakeDirected` of a freshly constructed board). -/
def bDirEmpty : Board :=
  { w := 2, h := 1, m := fun _ => UNUSED, m2 := some (fun _ => UNUSED) }

/-- A `2 × 1` undirected board holding the single edge `0 – 1` stored as
`m[0] = 1, m[1] = 0` (a 2-cycle tourney). -/
def bPair : Board :=
  { w := 2, h := 1,
    m := fun i => if i = 0 then 1 else if i = 1 then 0 else UNUSED,
    m2 := none }

/-- A `2 × 1` directed board whose primary table holds `m[0]=1, m[1]=0` and
whose secondary table is all `UNUSED`: the state reached from a fresh
directed board by `InsertDirectedMove(0,1)`. -/
def bDirPair : Board :=
  { w := 2, h := 1,
    m := fun i => if i = 0 then 1 else if i = 1 then 0 else UNUSED,
    m2 := some (fun _ => UNUSED) }

/-- A `2 × 1` directed board with both tables holding `[1, 0]`: the state
reached from a fresh directed board by inserting the move `(0,1)` twice. -/
def bDouble : Board :=
  { w := 2, h := 1,
    m := fun i => if i = 0 then 1 else if i = 1 then 0 else UNUSED,
    m2 := some (fun i => if i = 0 then 1 else if i = 1 then 0 else UNUSED) }

/-- A `2 × 2` directed board with primary table `[1, 2, 1, 0]` and secondary
table `[U, 0, 1, U]`: the walk of `IsTour` on it runs `0 → 1 → 2 → 1 → 0`,
revisiting cell 1 and never reaching cell 3. -/
def bGhost : Board :=
  { w := 2, h := 2,
    m := fun i =>
      if i = 0 then 1 else if i = 1 then 2
      else if i = 2 then 1 else if i = 3 then 0 else UNUSED,
    m2 := some (fun i => if i = 1 then 0 else if i = 2 then 1 else UNUSED) }

lemma secSet_m (b : Board) (i v : Int) : (secSet b i v).m = b.m := rfl

lemma primSet_m2 (b : Board) (i v : Int) : (primSet b i v).m2 = b.m2 := rfl

lemma primCleared_m2 (b : Board) (src dest : Int) :
    (primCleared b src dest).m2 = b.m2 := by
  unfold primCleared
  dsimp only
  split <;> split <;> rfl

lemma primCleared_isDirected (b : Board) (src dest : Int) :
    (primCleared b src dest).IsDirected = b.IsDirected := by
  unfold Board.IsDirected Board.IsUndirected
  rw [primCleared_m2]

/-- C10.  The claim says the predicate asserted at the top of
`IsUnused(int)` holds exactly when the board is undirected, matching the
function's own documentation ("Assumes that the board is undirected") and the
sibling undirected-only operations; but the source asserts `IsDirected()`
(BaseBoard.cpp line 161), which is false on every undirected board, so the
assertion trips on the very boards the operation is documented for: on the
freshly constructed undirected board `bEmpty2` the asserted predicate
evaluates to false. -/
theorem C10_assert_mismatch :
    bEmpty2.IsUndirected = true ∧ isUnusedAssertPred bEmpty2 = false := by
  decide

/-- C9.  For every board and every out-of-range index, `operator[]`/`GetMove`
returns `UNUSED` while `IsUnused` returns false; for every in-range index,
`IsUnused` is true iff the primary slot is `UNUSED`. -/
theorem C9_range_asymmetry (b : Board) (i : Int) :
    (CellIndexInRange b i = false →
      getMove b i = UNUSED ∧ IsUnused b i = false) ∧
    (CellIndexInRange b i = true →
      (IsUnused b i = true ↔ b.m i = UNUSED)) := by
  constructor
  · intro h
    unfold getMove IsUnused
    simp [h]
  · intro h
    unfold IsUnused
    simp [h]

/-- Witness for C9 at the concrete board `bEmpty2`: index 5 is out of range
(size 2), index 0 is in range with an `UNUSED` slot. -/
theorem C9_range_asymmetry_witness :
    getMove bEmpty2 5 = UNUSED ∧ IsUnused bEmpty2 5 = false ∧
      IsUnused bEmpty2 0 = true :=
  ⟨((C9_range_asymmetry bEmpty2 5).1 (by decide)).1,
   ((C9_range_asymmetry bEmpty2 5).1 (by decide)).2,
   ((C9_range_asymmetry bEmpty2 0).2 (by decide)).mpr (by decide)⟩

/-- C5.  On a directed board, `DeleteMove` performs the primary-table clears
unconditionally before the `IsMove` existence check: the result's primary
table always equals that of `primCleared`, and when `IsMove` fails on the
cleared board the call returns exactly the cleared board together with
`false` (the clears are not undone). -/
theorem C5_delete_clear_before_check (b : Board) (src dest : Int)
    (hd : b.IsDirected = true) :
    ((DeleteMove b src dest).1.m = (primCleared b src dest).m) ∧
    (IsMove (primCleared b src dest) src dest = false →
      DeleteMove b src dest = (primCleared b src dest, false)) := by
  unfold DeleteMove
  dsimp only
  rw [primCleared_isDirected b src dest, hd, if_pos rfl]
  constructor
  · split
    · rfl
    · split <;> split <;> rfl
  · intro h
    rw [if_pos h]

/-- Witness for C5: on the directed board `bDirPair` the move `(0,1)` is
stored only in the primary table, so the unconditional clears erase it, the
subsequent `IsMove` check fails, and the call returns the cleared board with
`false`. -/
theorem C5_delete_clear_before_check_witness :
    DeleteMove bDirPair 0 1 = (primCleared bDirPair 0 1, false) :=
  (C5_delete_clear_before_check bDirPair 0 1 (by decide)).2 (by decide)

/-- C4 counterexample.  The claim asserts `DeleteMove` returns false for a
non-recorded move on both directed and undirected boards; on the undirected
board `bEmpty2` no move `(0,1)` is recorded in any table, yet
`DeleteMove(0,1)` returns true (the undirected path of the source never
returns false). -/
theorem C4_counterexample :
    IsMove bEmpty2 0 1 = false ∧ (DeleteMove bEmpty2 0 1).2 = true := by
  decide

/-- C4 as amended.  On a directed board, `DeleteMove(src,dest)` with valid
indices and no recorded move in any table returns false (and leaves the
board unchanged); on an undirected board `DeleteMove` always returns true,
even when the move was never recorded. -/
theorem C4_delete_missing (b : Board) (src dest : Int) :
    (b.IsDirected = true → CellIndexInRange b src = true →
      CellIndexInRange b dest = true → IsMove b src dest = false →
      DeleteMove b src dest = (b, false)) ∧
    (b.IsUndirected = true → (DeleteMove b src dest).2 = true) := by
  constructor
  · intro hd hs hdt hm
    have h1 : b.m src ≠ dest := by
      intro he
      rw [show IsMove b src dest = true by unfold IsMove; simp [hs, hdt, he]] at hm
      exact absurd hm (by simp)
    have h2 : b.m dest ≠ src := by
      intro he
      rw [show IsMove b src dest = true by unfold IsMove; simp [hs, hdt, he]] at hm
      exact absurd hm (by simp)
    have hpc : primCleared b src dest = b := by
      unfold primCleared
      dsimp only
      rw [if_neg h1, if_neg h2]
    unfold DeleteMove
    dsimp only
    rw [hpc, hd, if_pos rfl, if_pos hm]
  · intro hu
    unfold DeleteMove
    dsimp only
    have hnd : (primCleared b src dest).IsDirected = false := by
      rw [primCleared_isDirected]
      unfold Board.IsDirected
      rw [hu]
      rfl
    rw [hnd]
    simp

/-- Witness for C4 (amended): the directed part at `bDirEmpty` with the
unrecorded move `(0,1)`, the undirected part at `bPair` with `(0,5)`. -/
theorem C4_delete_missing_witness :
    DeleteMove bDirEmpty 0 1 = (bDirEmpty, false) ∧
      (DeleteMove bPair 0 5).2 = true :=
  ⟨(C4_delete_missing bDirEmpty 0 1).1 (by decide) (by decide) (by decide)
      (by decide),
   (C4_delete_missing bPair 0 5).2 (by decide)⟩

/-- C7.  `InsertUndirectedMove` on an undirected board with valid indices
and well-formed slots (no values below `UNUSED`): writes `m[src] = dest` and
succeeds if `m[src]` is `UNUSED`; otherwise writes `m[dest] = src` and
succeeds if `m[dest]` is `UNUSED`; otherwise fails writing nothing; and
every slot other than the written one is unchanged. -/
theorem C7_insert_undirected (b : Board) (src dest : Int)
    (_hu : b.IsUndirected = true)
    (_hs : CellIndexInRange b src = true)
    (_hd : CellIndexInRange b dest = true)
    (hws : UNUSED ≤ b.m src) (hwd : UNUSED ≤ b.m dest) :
    (b.m src = UNUSED →
      InsertUndirectedMove b src dest = (primSet b src dest, true)) ∧
    (b.m src ≠ UNUSED → b.m dest = UNUSED →
      InsertUndirectedMove b src dest = (primSet b dest src, true)) ∧
    (b.m src ≠ UNUSED → b.m dest ≠ UNUSED →
      InsertUndirectedMove b src dest = (b, false)) ∧
    (∀ j, j ≠ src → j ≠ dest →
      ((InsertUndirectedMove b src dest).1).m j = b.m j) := by
  have es : b.m src < 0 ↔ b.m src = UNUSED := by
    unfold UNUSED at hws ⊢
    omega
  have ed : b.m dest < 0 ↔ b.m dest = UNUSED := by
    unfold UNUSED at hwd ⊢
    omega
  refine ⟨?_, ?_, ?_, ?_⟩
  · intro h
    unfold InsertUndirectedMove
    rw [if_pos (es.mpr h)]
  · intro h1 h2
    unfold InsertUndirectedMove
    rw [if_neg (fun hlt => h1 (es.mp hlt)), if_pos (ed.mpr h2)]
  · intro h1 h2
    unfold InsertUndirectedMove
    rw [if_neg (fun hlt => h1 (es.mp hlt)), if_neg (fun hlt => h2 (ed.mp hlt))]
  · intro j hj1 hj2
    unfold InsertUndirectedMove
    split
    · simp [primSet, hj1]
    · split
      · simp [primSet, hj2]
      · rfl

/-- Witness for C7 at `bEmpty2` with the move `(0,1)`: the first slot is
free, so exactly `m[0]` is written. -/
theorem C7_insert_undirected_witness :
    InsertUndirectedMove bEmpty2 0 1 = (primSet bEmpty2 0 1, true) :=
  (C7_insert_undirected bEmpty2 0 1 (by decide) (by decide) (by decide)
    (by decide) (by decide)).1 (by decide)

/-- The board after the `src`-side write of `InsertDirectedMove` when `src`
has a free slot: the primary slot if free, else the secondary slot. -/
def srcWritten (b : Board) (src dest : Int) : Board :=
  if b.m src = UNUSED then primSet b src dest else secSet b src dest

lemma m2get_primSet (b : Board) (i v j : Int) :
    m2get (primSet b i v) j = m2get b j := rfl

lemma primSet_m (b : Board) (i v j : Int) :
    (primSet b i v).m j = if j = i then v else b.m j := rfl

lemma m2get_secSet (b : Board) (t : Int → Int) (ht : b.m2 = some t)
    (i v j : Int) :
    m2get (secSet b i v) j = if j = i then v else m2get b j := by
  unfold m2get secSet
  rw [ht]

lemma insDirAtDest_cases (b1 : Board) (src dest : Int)
    (hw : UNUSED ≤ b1.m dest) (hw2 : UNUSED ≤ m2get b1 dest) :
    (b1.m dest = UNUSED →
      insDirAtDest b1 src dest = (primSet b1 dest src, true)) ∧
    (b1.m dest ≠ UNUSED → m2get b1 dest = UNUSED →
      insDirAtDest b1 src dest = (secSet b1 dest src, true)) ∧
    (b1.m dest ≠ UNUSED → m2get b1 dest ≠ UNUSED →
      insDirAtDest b1 src dest = (b1, false)) := by
  have e1 : b1.m dest < 0 ↔ b1.m dest = UNUSED := by
    unfold UNUSED at hw ⊢
    omega
  have e2 : m2get b1 dest < 0 ↔ m2get b1 dest = UNUSED := by
    unfold UNUSED at hw2 ⊢
    omega
  refine ⟨?_, ?_, ?_⟩
  · intro h
    unfold insDirAtDest
    rw [if_pos (e1.mpr h)]
  · intro h1 h2
    unfold insDirAtDest
    rw [if_neg (fun hlt => h1 (e1.mp hlt)), if_pos (e2.mpr h2)]
  · intro h1 h2
    unfold insDirAtDest
    rw [if_neg (fun hlt => h1 (e1.mp hlt)), if_neg (fun hlt => h2 (e2.mp hlt))]

lemma insertDirected_eq (b : Board) (src dest : Int)
    (hw1 : UNUSED ≤ b.m src) (hw2 : UNUSED ≤ m2get b src) :
    InsertDirectedMove b src dest =
      if b.m src = UNUSED ∨ m2get b src = UNUSED
      then insDirAtDest (srcWritten b src dest) src dest
      else (b, false) := by
  have e1 : b.m src < 0 ↔ b.m src = UNUSED := by
    unfold UNUSED at hw1 ⊢
    omega
  have e2 : m2get b src < 0 ↔ m2get b src = UNUSED := by
    unfold UNUSED at hw2 ⊢
    omega
  unfold InsertDirectedMove srcWritten
  by_cases h1 : b.m src = UNUSED
  · rw [if_pos (e1.mpr h1), if_pos (Or.inl h1), if_pos h1]
  · rw [if_neg (fun hlt => h1 (e1.mp hlt))]
    by_cases h2 : m2get b src = UNUSED
    · rw [if_pos (e2.mpr h2), if_pos (Or.inr h2), if_neg h1]
    · rw [if_neg (fun hlt => h2 (e2.mp hlt)),
        if_neg (fun hor => hor.elim h1 h2)]

/-- C6 counterexample.  The claim asserts failure happens exactly when `src`
or `dest` has no free slot; on `bDirPair` the call
`InsertDirectedMove(0,0)` fails although cell 0 (both `src` and `dest`) has
a free secondary slot before the call: the `src`-side write fills that slot,
so the `dest`-side check finds none left. -/
theorem C6_counterexample :
    (InsertDirectedMove bDirPair 0 0).2 = false ∧
      m2get bDirPair 0 = UNUSED ∧ bDirPair.IsDirected = true ∧
      CellIndexInRange bDirPair 0 = true := by
  decide

/-- C6 as amended.  On a directed board with valid indices and well-formed
slots, `InsertDirectedMove(src,dest)` returns false iff `src` has no free
(`UNUSED`) slot among its primary and secondary entries, or — after the
`src`-side write, which is what the `dest`-side test actually reads, the
difference mattering only when `src = dest` — `dest` has no free slot; and
when the failure is at `dest` the write into `src`'s slot persists: the
result is exactly the `src`-written board with `false`. -/
theorem C6_insert_directed_characterization (b : Board) (src dest : Int)
    (hdb : b.IsDirected = true)
    (_hs : CellIndexInRange b src = true)
    (hd : CellIndexInRange b dest = true)
    (hw1 : UNUSED ≤ b.m src) (hw2 : UNUSED ≤ m2get b src)
    (hw3 : UNUSED ≤ b.m dest) (hw4 : UNUSED ≤ m2get b dest) :
    ((InsertDirectedMove b src dest).2 = false ↔
      ((b.m src ≠ UNUSED ∧ m2get b src ≠ UNUSED) ∨
       ((srcWritten b src dest).m dest ≠ UNUSED ∧
        m2get (srcWritten b src dest) dest ≠ UNUSED))) ∧
    ((b.m src = UNUSED ∨ m2get b src = UNUSED) →
      (srcWritten b src dest).m dest ≠ UNUSED →
      m2get (srcWritten b src dest) dest ≠ UNUSED →
      InsertDirectedMove b src dest = (srcWritten b src dest, false)) := by
  obtain ⟨t, ht⟩ : ∃ t, b.m2 = some t := by
    cases hm2 : b.m2 with
    | none =>
      exfalso
      unfold Board.IsDirected Board.IsUndirected at hdb
      rw [hm2] at hdb
      exact absurd hdb (by decide)
    | some t => exact ⟨t, rfl⟩
  have hdest0 : (0 : Int) ≤ dest := (of_decide_eq_true hd).1
  have hwA : UNUSED ≤ (srcWritten b src dest).m dest := by
    unfold srcWritten
    split
    · rw [primSet_m]
      split
      · unfold UNUSED
        omega
      · exact hw3
    · rw [secSet_m]
      exact hw3
  have hwB : UNUSED ≤ m2get (srcWritten b src dest) dest := by
    unfold srcWritten
    split
    · rw [m2get_primSet]
      exact hw4
    · rw [m2get_secSet b t ht]
      split
      · unfold UNUSED
        omega
      · exact hw4
  rw [insertDirected_eq b src dest hw1 hw2]
  by_cases hfree : b.m src = UNUSED ∨ m2get b src = UNUSED
  · rw [if_pos hfree]
    have hcases := insDirAtDest_cases (srcWritten b src dest) src dest hwA hwB
    have hnotleft : ¬(b.m src ≠ UNUSED ∧ m2get b src ≠ UNUSED) := by
      intro hl
      exact hfree.elim hl.1 hl.2
    by_cases hA : (srcWritten b src dest).m dest = UNUSED
    · rw [hcases.1 hA]
      constructor
      · constructor
        · intro hf
          exact absurd hf (by simp)
        · intro hor
          exact absurd (hor.resolve_left hnotleft).1 (by simp [hA])
      · intro _ hne _
        exact absurd hA hne
    · by_cases hB : m2get (srcWritten b src dest) dest = UNUSED
      · rw [hcases.2.1 hA hB]
        constructor
        · constructor
          · intro hf
            exact absurd hf (by simp)
          · intro hor
            exact absurd hB (hor.resolve_left hnotleft).2
        · intro _ _ hne2
          exact absurd hB hne2
      · rw [hcases.2.2 hA hB]
        constructor
        · constructor
          · intro _
            exact Or.inr ⟨hA, hB⟩
          · intro _
            rfl
        · intro _ _ _
          rfl
  · rw [if_neg hfree]
    constructor
    · constructor
      · intro _
        rcases not_or.mp hfree with ⟨hx, hy⟩
        exact Or.inl ⟨hx, hy⟩
      · intro _
        rfl
    · intro hcon
      exact absurd hcon hfree

/-- Witness for C6 (amended): on the full board `bDouble` cell 0 has no free
slot, so inserting `(0,1)` fails. -/
theorem C6_insert_directed_witness :
    (InsertDirectedMove bDouble 0 1).2 = false :=
  (C6_insert_directed_characterization bDouble 0 1 (by decide) (by decide)
    (by decide) (by decide) (by decide) (by decide) (by decide)).1.mpr
    (Or.inl ⟨by decide, by decide⟩)

lemma getDest_of_delta (b : Board) (src dest ddx ddy : Int)
    (hw : (0 : Int) < b.w)
    (hd0 : 0 ≤ dest) (hd1 : dest < (b.size : Int))
    (hx : dest % (b.w : Int) - src % (b.w : Int) = ddx)
    (hy : dest / (b.w : Int) - src / (b.w : Int) = ddy) :
    GetDest b src (ddx, ddy) = dest := by
  unfold GetDest
  dsimp only
  have hmod0 : 0 ≤ dest % (b.w : Int) := Int.emod_nonneg dest (by omega)
  have hmod1 : dest % (b.w : Int) < (b.w : Int) := Int.emod_lt_of_pos dest hw
  have hdiv0 : 0 ≤ dest / (b.w : Int) := Int.ediv_nonneg hd0 (le_of_lt hw)
  have hsz : (b.size : Int) = (b.w : Int) * (b.h : Int) := by
    unfold Board.size
    push_cast
    ring
  have hdiv1 : dest / (b.w : Int) < (b.h : Int) := by
    rw [Int.ediv_lt_iff_lt_mul hw]
    rw [hsz] at hd1
    linarith
  have ex : src % (b.w : Int) + ddx = dest % (b.w : Int) := by linarith
  have ey : src / (b.w : Int) + ddy = dest / (b.w : Int) := by linarith
  rw [ex, ey,
    if_pos ⟨by unfold InRangeX; exact decide_eq_true ⟨hmod0, hmod1⟩,
            by unfold InRangeY; exact decide_eq_true ⟨hdiv0, hdiv1⟩⟩,
    mul_comm]
  exact Int.ediv_add_emod dest (b.w : Int)

/-- C8.  For valid cell indices, `GetMoveIndex` realises exactly the fixed
displacement table (returning `UNUSED` on every non-knight displacement),
and applying the delta at index `GetMoveIndex(src,dest)` to `src` via
`GetDest` returns `dest` for every knight displacement. -/
theorem C8_move_index (b : Board) (src dest dx dy : Int)
    (hs : CellIndexInRange b src = true) (hd : CellIndexInRange b dest = true)
    (hdx : dx = dest % (b.w : Int) - src % (b.w : Int))
    (hdy : dy = dest / (b.w : Int) - src / (b.w : Int)) :
    (dx = -2 ∧ dy = -1 → GetMoveIndex b src dest = 3) ∧
    (dx = -2 ∧ dy = 1 → GetMoveIndex b src dest = 4) ∧
    (dx = -1 ∧ dy = -2 → GetMoveIndex b src dest = 2) ∧
    (dx = -1 ∧ dy = 2 → GetMoveIndex b src dest = 5) ∧
    (dx = 1 ∧ dy = -2 → GetMoveIndex b src dest = 1) ∧
    (dx = 1 ∧ dy = 2 → GetMoveIndex b src dest = 6) ∧
    (dx = 2 ∧ dy = -1 → GetMoveIndex b src dest = 0) ∧
    (dx = 2 ∧ dy = 1 → GetMoveIndex b src dest = 7) ∧
    ((dx, dy) ∉ g_vecDeltas → GetMoveIndex b src dest = UNUSED) ∧
    ((dx, dy) ∈ g_vecDeltas →
      GetDest b src (g_vecDeltas.getD (GetMoveIndex b src dest).toNat (0, 0))
        = dest) := by
  subst hdx hdy
  have hsv := of_decide_eq_true hs
  have hdv := of_decide_eq_true hd
  have hw : (0 : Int) < b.w := by
    rcases Nat.eq_zero_or_pos b.w with h0 | h1
    · exfalso
      unfold Board.size at hsv
      rw [h0] at hsv
      simp at hsv
      omega
    · exact_mod_cast h1
  have T3 : dest % (b.w : Int) - src % (b.w : Int) = -2 →
      dest / (b.w : Int) - src / (b.w : Int) = -1 →
      GetMoveIndex b src dest = 3 := by
    intro h1 h2
    unfold GetMoveIndex
    dsimp only
    rw [if_pos h1, if_pos h2]
  have T4 : dest % (b.w : Int) - src % (b.w : Int) = -2 →
      dest / (b.w : Int) - src / (b.w : Int) = 1 →
      GetMoveIndex b src dest = 4 := by
    intro h1 h2
    unfold GetMoveIndex
    dsimp only
    rw [if_pos h1, if_neg (by rw [h2]; decide), if_pos h2]
  have T2 : dest % (b.w : Int) - src % (b.w : Int) = -1 →
      dest / (b.w : Int) - src / (b.w : Int) = -2 →
      GetMoveIndex b src dest = 2 := by
    intro h1 h2
    unfold GetMoveIndex
    dsimp only
    rw [if_neg (by rw [h1]; decide), if_pos h1, if_pos h2]
  have T5 : dest % (b.w : Int) - src % (b.w : Int) = -1 →
      dest / (b.w : Int) - src / (b.w : Int) = 2 →
      GetMoveIndex b src dest = 5 := by
    intro h1 h2
    unfold GetMoveIndex
    dsimp only
    rw [if_neg (by rw [h1]; decide), if_pos h1,
      if_neg (by rw [h2]; decide), if_pos h2]
  have T1 : dest % (b.w : Int) - src % (b.w : Int) = 1 →
      dest / (b.w : Int) - src / (b.w : Int) = -2 →
      GetMoveIndex b src dest = 1 := by
    intro h1 h2
    unfold GetMoveIndex
    dsimp only
    rw [if_neg (by rw [h1]; decide), if_neg (by rw [h1]; decide),
      if_pos h1, if_pos h2]
  have T6 : dest % (b.w : Int) - src % (b.w : Int) = 1 →
      dest / (b.w : Int) - src / (b.w : Int) = 2 →
      GetMoveIndex b src dest = 6 := by
    intro h1 h2
    unfold GetMoveIndex
    dsimp only
    rw [if_neg (by rw [h1]; decide), if_neg (by rw [h1]; decide),
      if_pos h1, if_neg (by rw [h2]; decide), if_pos h2]
  have T0 : dest % (b.w : Int) - src % (b.w : Int) = 2 →
      dest / (b.w : Int) - src / (b.w : Int) = -1 →
      GetMoveIndex b src dest = 0 := by
    intro h1 h2
    unfold GetMoveIndex
    dsimp only
    rw [if_neg (by rw [h1]; decide), if_neg (by rw [h1]; decide),
      if_neg (by rw [h1]; decide), if_pos h1, if_pos h2]
  have T7 : dest % (b.w : Int) - src % (b.w : Int) = 2 →
      dest / (b.w : Int) - src / (b.w : Int) = 1 →
      GetMoveIndex b src dest = 7 := by
    intro h1 h2
    unfold GetMoveIndex
    dsimp only
    rw [if_neg (by rw [h1]; decide), if_neg (by rw [h1]; decide),
      if_neg (by rw [h1]; decide), if_pos h1,
      if_neg (by rw [h2]; decide), if_pos h2]
  refine ⟨fun h => T3 h.1 h.2, fun h => T4 h.1 h.2, fun h => T2 h.1 h.2,
    fun h => T5 h.1 h.2, fun h => T1 h.1 h.2, fun h => T6 h.1 h.2,
    fun h => T0 h.1 h.2, fun h => T7 h.1 h.2, ?_, ?_⟩
  · intro hmem
    simp only [g_vecDeltas, List.mem_cons, List.not_mem_nil, or_false,
      Prod.mk.injEq, not_or] at hmem
    unfold GetMoveIndex
    dsimp only
    split_ifs <;> first | rfl | (exfalso; omega)
  · intro hmem
    simp only [g_vecDeltas, List.mem_cons, List.not_mem_nil, or_false,
      Prod.mk.injEq] at hmem
    rcases hmem with ⟨h1, h2⟩ | ⟨h1, h2⟩ | ⟨h1, h2⟩ | ⟨h1, h2⟩ |
      ⟨h1, h2⟩ | ⟨h1, h2⟩ | ⟨h1, h2⟩ | ⟨h1, h2⟩
    · rw [T0 h1 h2]
      exact getDest_of_delta b src dest 2 (-1) hw hdv.1 hdv.2 h1 h2
    · rw [T1 h1 h2]
      exact getDest_of_delta b src dest 1 (-2) hw hdv.1 hdv.2 h1 h2
    · rw [T2 h1 h2]
      exact getDest_of_delta b src dest (-1) (-2) hw hdv.1 hdv.2 h1 h2
    · rw [T3 h1 h2]
      exact getDest_of_delta b src dest (-2) (-1) hw hdv.1 hdv.2 h1 h2
    · rw [T4 h1 h2]
      exact getDest_of_delta b src dest (-2) 1 hw hdv.1 hdv.2 h1 h2
    · rw [T5 h1 h2]
      exact getDest_of_delta b src dest (-1) 2 hw hdv.1 hdv.2 h1 h2
    · rw [T6 h1 h2]
      exact getDest_of_delta b src dest 1 2 hw hdv.1 hdv.2 h1 h2
    · rw [T7 h1 h2]
      exact getDest_of_delta b src dest 2 1 hw hdv.1 hdv.2 h1 h2

/-- An empty `4 × 4` undirected board. -/
def bEmpty44 : Board :=
  { w := 4, h := 4, m := fun _ => UNUSED, m2 := none }

/-- Witness for C8 on the `4 × 4` board: the displacement from cell 0 to
cell 9 is `(1,2)`, whose canonical index is 6, and `GetDest` inverts it. -/
theorem C8_move_index_witness :
    GetMoveIndex bEmpty44 0 9 = 6 ∧
      GetDest bEmpty44 0
        (g_vecDeltas.getD (GetMoveIndex bEmpty44 0 9).toNat (0, 0)) = 9 :=
  have h := C8_move_index bEmpty44 0 9 1 2 (by decide) (by decide)
    (by decide) (by decide)
  ⟨h.2.2.2.2.2.1 ⟨by decide, by decide⟩,
   h.2.2.2.2.2.2.2.2.2 (by decide)⟩

lemma foldU_false (b : Board) (l : List Nat) (cnt : Int → Nat) :
    l.foldl (tourneyStepU b) (cnt, false) = (cnt, false) := by
  induction l with
  | nil => rfl
  | cons a l ih =>
    rw [List.foldl_cons, show tourneyStepU b (cnt, false) a = (cnt, false)
      from by unfold tourneyStepU; rw [if_neg (by simp)]]
    exact ih

lemma foldD_false (b : Board) (l : List Nat) (cnt : Int → Nat) :
    l.foldl (tourneyStepD b) (cnt, false) = (cnt, false) := by
  induction l with
  | nil => rfl
  | cons a l ih =>
    rw [List.foldl_cons, show tourneyStepD b (cnt, false) a = (cnt, false)
      from by unfold tourneyStepD; rw [if_neg (by simp)]]
    exact ih

lemma foldU_bad (b : Board) (l : List Nat) (cnt : Int → Nat)
    (hbad : ∃ i ∈ l, CellIndexInRange b (b.m (((i : Nat) : Int))) = false) :
    (l.foldl (tourneyStepU b) (cnt, true)).2 = false := by
  induction l generalizing cnt with
  | nil => simp at hbad
  | cons a l ih =>
    rw [List.foldl_cons]
    by_cases hc : CellIndexInRange b (b.m (((a : Nat) : Int))) = true
    · rw [show tourneyStepU b (cnt, true) a =
          (bump (bump cnt (((a : Nat) : Int))) (b.m (((a : Nat) : Int))), true)
        from by unfold tourneyStepU; rw [if_pos rfl, if_pos hc]]
      obtain ⟨i, hi, hib⟩ := hbad
      rcases List.mem_cons.mp hi with rfl | hi2
      · rw [hib] at hc
        exact absurd hc (by decide)
      · exact ih _ ⟨i, hi2, hib⟩
    · rw [show tourneyStepU b (cnt, true) a = (cnt, false)
        from by unfold tourneyStepU; rw [if_pos rfl, if_neg hc],
        foldU_false]

lemma tourneyStepD_good (b : Board) (cnt : Int → Nat) (a : Nat)
    (hc1 : CellIndexInRange b (b.m (((a : Nat) : Int))) = true)
    (hc2 : CellIndexInRange b (m2get b (((a : Nat) : Int))) = true) :
    tourneyStepD b (cnt, true) a =
      (bump (bump cnt (b.m (((a : Nat) : Int)))) (m2get b (((a : Nat) : Int))), true) := by
  unfold tourneyStepD
  rw [if_pos rfl]
  dsimp only
  rw [if_pos hc1]
  dsimp only
  rw [if_pos hc2]

lemma tourneyStepD_bad (b : Board) (cnt : Int → Nat) (a : Nat)
    (hbad : CellIndexInRange b (b.m (((a : Nat) : Int))) = false ∨
      CellIndexInRange b (m2get b (((a : Nat) : Int))) = false) :
    (tourneyStepD b (cnt, true) a).2 = false := by
  unfold tourneyStepD
  rw [if_pos rfl]
  dsimp only
  rcases hbad with h | h
  · rw [if_neg (show ¬(CellIndexInRange b (b.m (((a : Nat) : Int))) = true) from by
      rw [h]; decide)]
    dsimp only
    split
    · rfl
    · rfl
  · rw [if_neg (show ¬(CellIndexInRange b (m2get b (((a : Nat) : Int))) = true) from by
      rw [h]; decide)]

lemma foldD_bad (b : Board) (l : List Nat) (cnt : Int → Nat)
    (hbad : ∃ i ∈ l, CellIndexInRange b (b.m (((i : Nat) : Int))) = false ∨
      CellIndexInRange b (m2get b (((i : Nat) : Int))) = false) :
    (l.foldl (tourneyStepD b) (cnt, true)).2 = false := by
  induction l generalizing cnt with
  | nil => simp at hbad
  | cons a l ih =>
    rw [List.foldl_cons]
    by_cases hc1 : CellIndexInRange b (b.m (((a : Nat) : Int))) = true
    · by_cases hc2 : CellIndexInRange b (m2get b (((a : Nat) : Int))) = true
      · rw [tourneyStepD_good b cnt a hc1 hc2]
        obtain ⟨i, hi, hib⟩ := hbad
        rcases List.mem_cons.mp hi with rfl | hi2
        · rcases hib with hib | hib
          · rw [hib] at hc1
            exact absurd hc1 (by decide)
          · rw [hib] at hc2
            exact absurd hc2 (by decide)
        · exact ih _ ⟨i, hi2, hib⟩
      · have hstep : (tourneyStepD b (cnt, true) a).2 = false :=
          tourneyStepD_bad b cnt a (Or.inr (Bool.not_eq_true _ ▸ hc2))
        obtain ⟨f2, hf2⟩ : ∃ f2, tourneyStepD b (cnt, true) a = (f2, false) :=
          ⟨(tourneyStepD b (cnt, true) a).1, by rw [← hstep]⟩
        rw [hf2, foldD_false]
    · have hstep : (tourneyStepD b (cnt, true) a).2 = false :=
        tourneyStepD_bad b cnt a (Or.inl (Bool.not_eq_true _ ▸ hc1))
      obtain ⟨f2, hf2⟩ : ∃ f2, tourneyStepD b (cnt, true) a = (f2, false) :=
        ⟨(tourneyStepD b (cnt, true) a).1, by rw [← hstep]⟩
      rw [hf2, foldD_false]

lemma tourneyStepU_good (b : Board) (cnt : Int → Nat) (a : Nat)
    (hc : CellIndexInRange b (b.m (((a : Nat) : Int))) = true) :
    tourneyStepU b (cnt, true) a =
      (bump (bump cnt (((a : Nat) : Int))) (b.m (((a : Nat) : Int))), true) := by
  unfold tourneyStepU
  rw [if_pos rfl, if_pos hc]

lemma foldU_good (b : Board) (l : List Nat) (cnt : Int → Nat)
    (hgood : ∀ i ∈ l, CellIndexInRange b (b.m (((i : Nat) : Int))) = true) :
    l.foldl (tourneyStepU b) (cnt, true) =
      ((fun c => cnt c + l.countP (fun i => ((i : Nat) : Int) == c) +
        l.countP (fun i => b.m (((i : Nat) : Int)) == c)), true) := by
  induction l generalizing cnt with
  | nil => rfl
  | cons a l ih =>
    rw [List.foldl_cons,
      tourneyStepU_good b cnt a (hgood a (List.mem_cons_self a l)),
      ih _ (fun i hi => hgood i (List.mem_cons_of_mem a hi))]
    simp only [Prod.mk.injEq, and_true]
    funext c
    simp only [List.countP_cons, beq_iff_eq]
    unfold bump
    split_ifs <;> omega

lemma foldD_good (b : Board) (l : List Nat) (cnt : Int → Nat)
    (hgood : ∀ i ∈ l, CellIndexInRange b (b.m (((i : Nat) : Int))) = true ∧
      CellIndexInRange b (m2get b (((i : Nat) : Int))) = true) :
    l.foldl (tourneyStepD b) (cnt, true) =
      ((fun c => cnt c + l.countP (fun i => b.m (((i : Nat) : Int)) == c) +
        l.countP (fun i => m2get b (((i : Nat) : Int)) == c)), true) := by
  induction l generalizing cnt with
  | nil => rfl
  | cons a l ih =>
    rw [List.foldl_cons,
      tourneyStepD_good b cnt a (hgood a (List.mem_cons_self a l)).1
        (hgood a (List.mem_cons_self a l)).2,
      ih _ (fun i hi => hgood i (List.mem_cons_of_mem a hi))]
    simp only [Prod.mk.injEq, and_true]
    funext c
    simp only [List.countP_cons, beq_iff_eq]
    unfold bump
    split_ifs <;> omega

lemma tourney_characterization_aux (b : Board) :
    (allCellsUsed b = false → IsTourney b = false) ∧
    (allCellsUsed b = true →
      (IsTourney b = true ↔
        ∀ i ∈ List.range b.size, tourneyDeg b (((i : Nat) : Int)) = 2)) := by
  by_cases hub : b.IsUndirected = true
  · constructor
    · intro hfalse
      unfold allCellsUsed at hfalse
      rw [if_pos hub] at hfalse
      have hne : ¬((List.range b.size).all
          (fun i => CellIndexInRange b (b.m (((i : Nat) : Int)))) = true) := by
        rw [hfalse]
        decide
      rw [List.all_eq_true] at hne
      push_neg at hne
      obtain ⟨i, hi, hib⟩ := hne
      have hib2 : CellIndexInRange b (b.m (((i : Nat) : Int))) = false :=
        Bool.not_eq_true _ ▸ hib
      unfold IsTourney
      rw [if_pos hub]
      dsimp only
      rw [foldU_bad b _ _ ⟨i, hi, hib2⟩, if_pos rfl]
    · intro htrue
      unfold allCellsUsed at htrue
      rw [if_pos hub] at htrue
      have hgood := List.all_eq_true.mp htrue
      unfold IsTourney
      rw [if_pos hub]
      dsimp only
      rw [foldU_good b _ _ hgood]
      dsimp only
      rw [if_neg (by decide), List.all_eq_true]
      constructor
      · intro hall i hi
        have h2 := hall i hi
        simp only [beq_iff_eq] at h2
        unfold tourneyDeg
        rw [if_pos hub]
        omega
      · intro hdeg i hi
        have h2 := hdeg i hi
        unfold tourneyDeg at h2
        rw [if_pos hub] at h2
        simp only [beq_iff_eq]
        omega
  · constructor
    · intro hfalse
      unfold allCellsUsed at hfalse
      rw [if_neg hub] at hfalse
      have hne : ¬((List.range b.size).all
          (fun i => CellIndexInRange b (b.m (((i : Nat) : Int))) &&
            CellIndexInRange b (m2get b (((i : Nat) : Int)))) = true) := by
        rw [hfalse]
        decide
      rw [List.all_eq_true] at hne
      push_neg at hne
      obtain ⟨i, hi, hib⟩ := hne
      have hib2 : CellIndexInRange b (b.m (((i : Nat) : Int))) = false ∨
          CellIndexInRange b (m2get b (((i : Nat) : Int))) = false := by
        by_cases h1 : CellIndexInRange b (b.m (((i : Nat) : Int))) = true
        · by_cases h2 : CellIndexInRange b (m2get b (((i : Nat) : Int))) = true
          · exfalso
            apply hib
            rw [h1, h2]
            rfl
          · exact Or.inr (Bool.not_eq_true _ ▸ h2)
        · exact Or.inl (Bool.not_eq_true _ ▸ h1)
      unfold IsTourney
      rw [if_neg hub]
      dsimp only
      rw [foldD_bad b _ _ ⟨i, hi, hib2⟩, if_pos rfl]
    · intro htrue
      unfold allCellsUsed at htrue
      rw [if_neg hub] at htrue
      have hgood0 := List.all_eq_true.mp htrue
      have hgood : ∀ i ∈ List.range b.size,
          CellIndexInRange b (b.m (((i : Nat) : Int))) = true ∧
          CellIndexInRange b (m2get b (((i : Nat) : Int))) = true := by
        intro i hi
        exact Bool.and_eq_true _ _ |>.mp (hgood0 i hi)
      unfold IsTourney
      rw [if_neg hub]
      dsimp only
      rw [foldD_good b _ _ hgood]
      dsimp only
      rw [if_neg (by decide), List.all_eq_true]
      constructor
      · intro hall i hi
        have h2 := hall i hi
        simp only [beq_iff_eq] at h2
        unfold tourneyDeg
        rw [if_neg hub]
        omega
      · intro hdeg i hi
        have h2 := hdeg i hi
        unfold tourneyDeg at h2
        rw [if_neg hub] at h2
        simp only [beq_iff_eq]
        omega

lemma isTourAux_eq_specWalk (b : Board) :
    ∀ (fuel : Nat) (prev cur : Int) (acc : List Int),
      isTourAux b fuel prev cur acc.length =
        Option.map (fun p => (p.1.length, p.2)) (specWalkAux b fuel prev cur acc) := by
  intro fuel
  induction fuel with
  | zero =>
    intro prev cur acc
    unfold isTourAux specWalkAux
    simp
  | succ f ih =>
    intro prev cur acc
    unfold isTourAux specWalkAux
    by_cases hg : acc.length < b.size ∧ CellIndexInRange b cur = true ∧ cur ≠ 0
    · rw [if_pos hg, if_pos hg]
      dsimp only
      by_cases hd : b.m cur = prev
      · rw [if_pos hd, if_pos hd]
        by_cases hu : b.IsUndirected = true
        · rw [if_pos hu, if_pos hu]
          rfl
        · rw [if_neg hu, if_neg hu]
          exact ih cur (m2get b cur) (cur :: acc)
      · rw [if_neg hd, if_neg hd]
        exact ih cur (b.m cur) (cur :: acc)
    · rw [if_neg hg, if_neg hg]
      simp

lemma isTour_iff_walk (b : Board) :
    IsTour b = true ↔ TourWalkCloses b := by
  unfold IsTour TourWalkCloses specTourWalk
  rw [show (1 : Nat) = ([(0 : Int)] : List Int).length from rfl,
    isTourAux_eq_specWalk b b.size 0 (b.m 0) [0]]
  cases hw : specWalkAux b b.size 0 (b.m 0) [0] with
  | none => simp
  | some p =>
    simp only [Option.map_some']
    constructor
    · intro ht
      have hd := of_decide_eq_true ht
      exact ⟨p, rfl, hd.1, hd.2⟩
    · rintro ⟨q, hq, h1, h2⟩
      cases Option.some.inj hq
      exact decide_eq_true ⟨h1, h2⟩

lemma cycleBoard_size (n : Nat) : (cycleBoard n).size = n := by
  unfold cycleBoard Board.size
  exact Nat.mul_one n

lemma cyc_step (n : Nat) (j : Nat) (h2 : j + 2 < n) (fuel : Nat) :
    isTourAux (cycleBoard n) (fuel + 1) (j : Int) ((j : Int) + 1) (j + 1) =
      isTourAux (cycleBoard n) fuel ((j : Int) + 1) ((j : Int) + 1 + 1)
        (j + 1 + 1) := by
  have hguard : j + 1 < (cycleBoard n).size ∧
      CellIndexInRange (cycleBoard n) ((j : Int) + 1) = true ∧
      ((j : Int) + 1) ≠ 0 := by
    refine ⟨by rw [cycleBoard_size]; omega, ?_, by intro he; omega⟩
    unfold CellIndexInRange
    rw [cycleBoard_size]
    exact decide_eq_true ⟨by omega, by omega⟩
  have hm : (cycleBoard n).m ((j : Int) + 1) = (j : Int) + 1 + 1 := by
    unfold cycleBoard
    dsimp only
    rw [if_neg (by intro he; omega), if_pos ⟨by omega, by omega⟩]
  rw [isTourAux, if_pos hguard]
  dsimp only
  rw [hm, if_neg (show ¬((j : Int) + 1 + 1 = (j : Int)) from by intro he; omega)]

lemma cyc_chain (n : Nat) (hn : 4 ≤ n) :
    ∀ k j : Nat, j + 2 + k = n →
      isTourAux (cycleBoard n) (n - j) (j : Int) ((j : Int) + 1) (j + 1) =
        some (n, 0) := by
  intro k
  induction k with
  | zero =>
    intro j hj
    have hf : n - j = 1 + 1 := by omega
    have hguard : j + 1 < (cycleBoard n).size ∧
        CellIndexInRange (cycleBoard n) ((j : Int) + 1) = true ∧
        ((j : Int) + 1) ≠ 0 := by
      refine ⟨by rw [cycleBoard_size]; omega, ?_, by intro he; omega⟩
      unfold CellIndexInRange
      rw [cycleBoard_size]
      exact decide_eq_true ⟨by omega, by omega⟩
    have hm : (cycleBoard n).m ((j : Int) + 1) = 0 := by
      unfold cycleBoard
      dsimp only
      rw [if_pos (by omega)]
    rw [hf, isTourAux, if_pos hguard]
    dsimp only
    rw [hm, if_neg (show ¬((0 : Int) = (j : Int)) from by intro he; omega)]
    rw [isTourAux, if_neg (show ¬(j + 1 + 1 < (cycleBoard n).size ∧
      CellIndexInRange (cycleBoard n) (0 : Int) = true ∧ (0 : Int) ≠ 0) from by
        intro hg
        exact hg.2.2 rfl)]
    rw [show j + 1 + 1 = n from by omega]
  | succ k ih =>
    intro j hj
    have hf : n - j = (n - (j + 1)) + 1 := by omega
    rw [hf, cyc_step n j (by omega) (n - (j + 1))]
    have h := ih (j + 1) (by omega)
    push_cast at h
    exact h

/-- Starting the `IsTour` walk on a board whose cell-0 slot is `UNUSED`
stops immediately. -/
lemma isTourAux_unused_start (B : Board) (f : Nat) :
    isTourAux B (f + 1) 0 UNUSED 1 = some (1, UNUSED) := by
  rw [isTourAux, if_neg (show ¬(1 < B.size ∧
      CellIndexInRange B UNUSED = true ∧ UNUSED ≠ 0) from by
    intro hg
    have h2 := of_decide_eq_true hg.2.1
    unfold UNUSED at h2
    omega)]

/-- The cycle board with `n ≥ 4` passes `IsTour`. -/
lemma cyc_isTour (n : Nat) (hn : 4 ≤ n) : IsTour (cycleBoard n) = true := by
  unfold IsTour
  have hm0 : (cycleBoard n).m 0 = 1 := by
    unfold cycleBoard
    dsimp only
    rw [if_neg (by intro he; omega), if_pos ⟨by omega, by omega⟩]
    decide
  have h := cyc_chain n hn (n - 2) 0 (by omega)
  have h2 : isTourAux (cycleBoard n) n 0 1 1 = some (n, 0) := by
    simpa using h
  rw [cycleBoard_size, hm0, h2]
  exact decide_eq_true ⟨rfl, rfl⟩

/-- Clearing cell 0 of the cycle board (any `n ≥ 2`) fails `IsTour`. -/
lemma cyc_broken (n : Nat) (hn : 2 ≤ n) :
    IsTour (primSet (cycleBoard n) 0 UNUSED) = false := by
  unfold IsTour
  have hsz : (primSet (cycleBoard n) 0 UNUSED).size = n := by
    unfold primSet Board.size
    exact Nat.mul_one n
  have hm0 : (primSet (cycleBoard n) 0 UNUSED).m 0 = UNUSED := by
    unfold primSet
    dsimp only
    rw [if_pos rfl]
  rw [hm0, hsz]
  obtain ⟨f, hfn⟩ : ∃ f, n = f + 1 := ⟨n - 1, by omega⟩
  rw [hfn, isTourAux_unused_start]
  apply decide_eq_false
  intro hc
  have h2 := hc.2
  unfold UNUSED at h2
  omega

/-- C1 counterexample.  Two failures of the claim as stated: (i) for the
even size `n = 2` the cycle board `0 → 1 → 0` makes `IsTour` return false
(the walk's second step returns to the predecessor through the same table,
which `IsTour` flags as an error on an undirected board), although the claim
asserts `IsTour() == true` for every even `n ≥ 2`; (ii) on the directed
board `bGhost` the walk runs `0 → 1 → 2 → 1 → 0`, visiting only 3 distinct
cells of 4 — the moves do not form a Hamiltonian cycle through all cells —
yet `IsTour` returns true, because the walk only counts visits with
multiplicity. -/
theorem C1_counterexample :
    IsTour (cycleBoard 2) = false ∧
      (IsTour bGhost = true ∧
        specTourWalk bGhost = some ([0, 1, 2, 1], 0) ∧
        ([0, 1, 2, 1] : List Int).dedup.length = 3 ∧ bGhost.size = 4) := by
  decide

/-- C1 as amended.  `IsTour` returns true iff the walk starting at cell 0
that follows the recorded moves (avoiding immediate backtracking via the
secondary table on directed boards) makes exactly `n` visits — counted with
multiplicity; on directed boards with inconsistent secondary tables cells
may repeat — and closes back to cell 0; a board whose primary table encodes
the cycle `0 → 1 → ⋯ → (n-1) → 0` satisfies `IsTour() == true` for even
`n ≥ 4` (for `n = 2` the walk is flagged as backtracking and `IsTour`
returns false), and setting cell 0's move to `UNUSED` makes `IsTour` false
for every even `n ≥ 2`. -/
theorem C1_tour_characterization :
    (∀ b : Board, IsTour b = true ↔ TourWalkCloses b) ∧
    (∀ n : Nat, 4 ≤ n → n % 2 = 0 → IsTour (cycleBoard n) = true) ∧
    (∀ n : Nat, 2 ≤ n → n % 2 = 0 →
      IsTour (primSet (cycleBoard n) 0 UNUSED) = false) :=
  ⟨fun b => isTour_iff_walk b,
   fun n hn _ => cyc_isTour n hn,
   fun n hn _ => cyc_broken n hn⟩

/-- Witness for C1 (amended) at `n = 4`, and the walk characterization at
the concrete cycle board. -/
theorem C1_tour_characterization_witness :
    IsTour (cycleBoard 4) = true ∧
      IsTour (primSet (cycleBoard 4) 0 UNUSED) = false ∧
      TourWalkCloses (cycleBoard 4) :=
  ⟨C1_tour_characterization.2.1 4 (by decide) (by decide),
   C1_tour_characterization.2.2 4 (by decide) (by decide),
   (C1_tour_characterization.1 (cycleBoard 4)).mp
     (C1_tour_characterization.2.1 4 (by decide) (by decide))⟩

/-- C2 as amended.  `IsTourney` returns false whenever some scanned table
entry is out of range; otherwise it returns true iff every cell's degree is
exactly 2, where on an undirected board each primary entry `(i,m[i])`
contributes one at `i` and one at `m[i]`, while on a directed board each
primary or secondary entry `(i,t[i])` contributes one at the destination
`t[i]` only (each stored directed edge appears in both endpoints' tables, so
on consistent boards this is the edge degree). -/
theorem C2_tourney_characterization (b : Board) :
    (allCellsUsed b = false → IsTourney b = false) ∧
    (allCellsUsed b = true →
      (IsTourney b = true ↔
        ∀ i ∈ List.range b.size, tourneyDeg b ((i : Nat) : Int) = 2)) :=
  tourney_characterization_aux b

/-- C2 counterexample.  The claim counts the degree "over both endpoints of
every table entry"; under that definition the directed board `bDouble`
(move `(0,1)` inserted twice, all four table slots in range) gives cell 0
degree 4, so the claim predicts `IsTourney() == false`, but the source
increments only the destination endpoint of each directed entry and returns
true. -/
theorem C2_counterexample :
    IsTourney bDouble = true ∧ allCellsUsed bDouble = true ∧
      claimDeg bDouble 0 = 4 := by
  decide

/-- Witness for C2 (amended) at the 2-cycle board `bPair`: all entries are
in range and both cells have degree 2, so `IsTourney` returns true. -/
theorem C2_tourney_characterization_witness : IsTourney bPair = true :=
  ((C2_tourney_characterization bPair).2 (by decide)).mpr (by decide)

lemma countP_range_cast (n : Nat) (x : Int) :
    (List.range n).countP (fun i => ((i : Nat) : Int) == x) =
      if 0 ≤ x ∧ x < (n : Int) then 1 else 0 := by
  induction n with
  | zero =>
    rw [List.range_zero, if_neg (by omega)]
    rfl
  | succ k ih =>
    rw [List.range_succ, List.countP_append, ih]
    simp only [List.countP_cons, List.countP_nil, beq_iff_eq]
    split_ifs <;> omega

lemma countP_congr_mem {α : Type} (l : List α) (p q : α → Bool)
    (h : ∀ a ∈ l, p a = q a) : l.countP p = l.countP q := by
  induction l with
  | nil => rfl
  | cons a l ih =>
    rw [List.countP_cons, List.countP_cons,
      h a (List.mem_cons_self a l),
      ih (fun x hx => h x (List.mem_cons_of_mem a hx))]

lemma countP_eq_one_exists {α : Type} (p : α → Bool) (l : List α)
    (h : l.countP p = 1) :
    ∃ a ∈ l, p a = true ∧ ∀ c ∈ l, p c = true → c = a := by
  rw [List.countP_eq_length_filter] at h
  obtain ⟨a, ha⟩ := List.length_eq_one.mp h
  have hmem : a ∈ l.filter p := by
    rw [ha]
    exact List.mem_singleton_self a
  have h1 := List.mem_filter.mp hmem
  refine ⟨a, h1.1, h1.2, ?_⟩
  intro c hc hpc
  have h2 : c ∈ l.filter p := List.mem_filter.mpr ⟨hc, hpc⟩
  rw [ha] at h2
  exact List.mem_singleton.mp h2

lemma makeDirected_m (b : Board) (hu : b.IsUndirected = true) :
    (MakeDirected b).m = b.m := by
  unfold MakeDirected
  rw [if_pos hu]

lemma makeDirected_size (b : Board) (hu : b.IsUndirected = true) :
    (MakeDirected b).size = b.size := by
  unfold MakeDirected
  rw [if_pos hu]
  rfl

lemma makeDirected_isDirected (b : Board) (hu : b.IsUndirected = true) :
    (MakeDirected b).IsDirected = true := by
  unfold MakeDirected
  rw [if_pos hu]
  rfl

lemma makeDirected_m2get (b : Board) (hu : b.IsUndirected = true) (y : Int) :
    m2get (MakeDirected b) y =
      ((List.range b.size).foldl (mdStep b) (fun _ => UNUSED)) y := by
  unfold MakeDirected
  rw [if_pos hu]
  rfl

lemma mdFold_miss (b : Board) (c : Int) :
    ∀ (l : List Nat) (t : Int → Int),
      (∀ i ∈ l, b.m ((i : Nat) : Int) ≠ c) →
      (l.foldl (mdStep b) t) c = t c := by
  intro l
  induction l with
  | nil => intro t _; rfl
  | cons a l ih =>
    intro t h
    rw [List.foldl_cons, ih _ (fun i hi => h i (List.mem_cons_of_mem a hi))]
    unfold mdStep
    split
    · dsimp only
      rw [if_neg (fun he => h a (List.mem_cons_self a l) he.symm)]
    · rfl

lemma mdFold_hit (b : Board) (c : Int) (j : Nat)
    (hv : CellIndexInRange b (b.m ((j : Nat) : Int)) = true)
    (hc : b.m ((j : Nat) : Int) = c) :
    ∀ (l : List Nat) (t : Int → Int), j ∈ l →
      (∀ i ∈ l, b.m ((i : Nat) : Int) = c → i = j) →
      (l.foldl (mdStep b) t) c = ((j : Nat) : Int) := by
  intro l
  induction l with
  | nil =>
    intro t hj _
    simp at hj
  | cons a l ih =>
    intro t hj huniq
    rw [List.foldl_cons]
    by_cases haj : a = j
    · subst haj
      by_cases hjl : a ∈ l
      · exact ih _ hjl (fun i hi hic => huniq i (List.mem_cons_of_mem a hi) hic)
      · rw [mdFold_miss b c l _ (fun i hi hic => absurd
          (huniq i (List.mem_cons_of_mem a hi) hic ▸ hi) hjl)]
        unfold mdStep
        rw [if_pos hv, if_pos hc.symm]
    · have hj2 : j ∈ l := by
        rcases List.mem_cons.mp hj with h | h
        · exact absurd h.symm haj
        · exact h
      exact ih _ hj2 (fun i hi hic => huniq i (List.mem_cons_of_mem a hi) hic)

lemma makeDirected_back (b : Board) (hu : b.IsUndirected = true)
    (Hval : ∀ x : Int, 0 ≤ x → x < (b.size : Int) →
      0 ≤ b.m x ∧ b.m x < (b.size : Int))
    (Huniq : ∀ x y : Int, 0 ≤ x → x < (b.size : Int) → 0 ≤ y →
      y < (b.size : Int) → b.m x = b.m y → x = y)
    (x : Int) (hx1 : 0 ≤ x) (hx2 : x < (b.size : Int)) :
    m2get (MakeDirected b) (b.m x) = x := by
  rw [makeDirected_m2get b hu]
  have hxc : ((x.toNat : Nat) : Int) = x := Int.toNat_of_nonneg hx1
  have hv : CellIndexInRange b (b.m ((x.toNat : Nat) : Int)) = true := by
    rw [hxc]
    unfold CellIndexInRange
    exact decide_eq_true (Hval x hx1 hx2)
  have hc : b.m ((x.toNat : Nat) : Int) = b.m x := by rw [hxc]
  rw [mdFold_hit b (b.m x) x.toNat hv hc (List.range b.size) _
    (by rw [List.mem_range]; omega)
    (fun i hi hic => by
      have hi2 := List.mem_range.mp hi
      have := Huniq ((i : Nat) : Int) x (by omega) (by omega) hx1 hx2 hic
      omega)]
  exact hxc

lemma iterate_valid (B : Board)
    (Hval : ∀ x : Int, 0 ≤ x → x < (B.size : Int) →
      0 ≤ B.m x ∧ B.m x < (B.size : Int))
    (s : Int) (hs1 : 0 ≤ s) (hs2 : s < (B.size : Int)) :
    ∀ t : Nat, 0 ≤ B.m^[t] s ∧ B.m^[t] s < (B.size : Int) := by
  intro t
  induction t with
  | zero =>
    rw [Function.iterate_zero_apply]
    exact ⟨hs1, hs2⟩
  | succ t ih =>
    rw [Function.iterate_succ_apply']
    exact Hval _ ih.1 ih.2

lemma exists_period (B : Board)
    (Hval : ∀ x : Int, 0 ≤ x → x < (B.size : Int) →
      0 ≤ B.m x ∧ B.m x < (B.size : Int))
    (Huniq : ∀ x y : Int, 0 ≤ x → x < (B.size : Int) → 0 ≤ y →
      y < (B.size : Int) → B.m x = B.m y → x = y)
    (s : Int) (hs1 : 0 ≤ s) (hs2 : s < (B.size : Int)) :
    ∃ k, 1 ≤ k ∧ k ≤ B.size ∧ B.m^[k] s = s := by
  have hit := iterate_valid B Hval s hs1 hs2
  have hcancel : ∀ a : Nat, ∀ c : Nat, a ≤ c → B.m^[a] s = B.m^[c] s →
      B.m^[c - a] s = s := by
    intro a
    induction a with
    | zero =>
      intro c _ h
      rw [Function.iterate_zero_apply] at h
      rw [Nat.sub_zero]
      exact h.symm
    | succ a ih =>
      intro c hac h
      obtain ⟨d, rfl⟩ : ∃ d, c = d + 1 := ⟨c - 1, by omega⟩
      rw [Function.iterate_succ_apply', Function.iterate_succ_apply'] at h
      have he := Huniq _ _ (hit a).1 (hit a).2 (hit d).1 (hit d).2 h
      have h2 := ih d (by omega) he
      rw [show d + 1 - (a + 1) = d - a from by omega]
      exact h2
  have hmaps : ∀ t ∈ Finset.range (B.size + 1),
      (B.m^[t] s).toNat ∈ Finset.range B.size := by
    intro t _
    rw [Finset.mem_range]
    have := hit t
    omega
  obtain ⟨a, ha, c, hc, hne, heq⟩ :=
    Finset.exists_ne_map_eq_of_card_lt_of_maps_to
      (show (Finset.range B.size).card < (Finset.range (B.size + 1)).card by
        simp) hmaps
  rw [Finset.mem_range] at ha hc
  have heqI : B.m^[a] s = B.m^[c] s := by
    have h1 := hit a
    have h2 := hit c
    omega
  rcases Nat.lt_or_ge a c with h | h
  · exact ⟨c - a, by omega, by omega, hcancel a c (by omega) heqI⟩
  · have hlt : c < a := by omega
    exact ⟨a - c, by omega, by omega, hcancel c a (by omega) heqI.symm⟩

lemma muWalk_spec (B : Board)
    (Hval : ∀ x : Int, 0 ≤ x → x < (B.size : Int) →
      0 ≤ B.m x ∧ B.m x < (B.size : Int))
    (Hback : ∀ x : Int, 0 ≤ x → x < (B.size : Int) → m2get B (B.m x) = x)
    (start : Int) :
    ∀ (fuel : Nat) (prev cur : Int) (temp : Int → Int),
      0 ≤ prev → prev < (B.size : Int) → cur = B.m prev →
      (∃ r, r < fuel ∧ B.m^[r] cur = start) →
      ((∀ c, muWalk B start fuel prev cur temp c = temp c ∨
        (0 ≤ c ∧ c < (B.size : Int) ∧
          muWalk B start fuel prev cur temp c = B.m c)) ∧
       muWalk B start fuel prev cur temp prev = B.m prev) := by
  intro fuel
  induction fuel with
  | zero =>
    intro prev cur temp _ _ _ hex
    obtain ⟨r, hr, _⟩ := hex
    omega
  | succ f ih =>
    intro prev cur temp hp1 hp2 hcur hex
    obtain ⟨r, hr, hiter⟩ := hex
    have hcv := Hval prev hp1 hp2
    have hc1 : 0 ≤ cur := hcur ▸ hcv.1
    have hc2 : cur < (B.size : Int) := hcur ▸ hcv.2
    have hinr : CellIndexInRange B cur = true := by
      unfold CellIndexInRange
      exact decide_eq_true ⟨hc1, hc2⟩
    by_cases hcs : cur = start
    · rw [muWalk, if_neg (fun hg => hg.2 hcs), if_pos ⟨(by
        unfold CellIndexInRange
        exact decide_eq_true ⟨hp1, hp2⟩ : CellIndexInRange B prev = true), hinr⟩]
      constructor
      · intro c
        by_cases hc : c = prev
        · subst hc
          refine Or.inr ⟨hp1, hp2, ?_⟩
          rw [if_pos rfl]
          exact hcur
        · rw [if_neg hc]
          exact Or.inl rfl
      · rw [if_pos rfl]
        exact hcur
    · obtain ⟨r2, rfl⟩ : ∃ r2, r = r2 + 1 := by
        refine ⟨r - 1, ?_⟩
        rcases Nat.eq_zero_or_pos r with h0 | h0
        · subst h0
          rw [Function.iterate_zero_apply] at hiter
          exact absurd hiter hcs
        · omega
      rw [muWalk, if_pos ⟨hinr, hcs⟩]
      have hdest : (if B.m cur = prev then m2get B cur else B.m cur)
          = B.m cur := by
        split
        · rename_i hh
          have h2 : m2get B (B.m prev) = prev := Hback prev hp1 hp2
          rw [hcur] at hh ⊢
          rw [h2]
          exact hh.symm
        · rfl
      rw [hdest]
      have hrec := ih cur (B.m cur) (fun c => if c = prev then cur else temp c)
        hc1 hc2 rfl ⟨r2, by omega, by
          rw [Function.iterate_succ_apply] at hiter
          exact hiter⟩
      constructor
      · intro c
        rcases hrec.1 c with h | h
        · by_cases hc : c = prev
          · subst hc
            refine Or.inr ⟨hp1, hp2, ?_⟩
            rw [h]
            show (if c = c then cur else temp c) = B.m c
            rw [if_pos rfl]
            exact hcur
          · refine Or.inl ?_
            rw [h]
            show (if c = prev then cur else temp c) = temp c
            rw [if_neg hc]
        · exact Or.inr h
      · rcases hrec.1 prev with h | h
        · rw [h]
          show (if prev = prev then cur else temp prev) = B.m prev
          rw [if_pos rfl]
          exact hcur
        · exact h.2.2

lemma muFold_spec (B : Board)
    (Hval : ∀ x : Int, 0 ≤ x → x < (B.size : Int) →
      0 ≤ B.m x ∧ B.m x < (B.size : Int))
    (Hback : ∀ x : Int, 0 ≤ x → x < (B.size : Int) → m2get B (B.m x) = x)
    (Huniq : ∀ x y : Int, 0 ≤ x → x < (B.size : Int) → 0 ≤ y →
      y < (B.size : Int) → B.m x = B.m y → x = y) :
    ∀ (l : List Nat) (temp : Int → Int),
      (∀ i ∈ l, i < B.size) →
      (∀ c, temp c = UNUSED ∨
        (0 ≤ c ∧ c < (B.size : Int) ∧ temp c = B.m c)) →
      ((∀ c, (l.foldl (muStep B) temp) c = UNUSED ∨
          (0 ≤ c ∧ c < (B.size : Int) ∧
            (l.foldl (muStep B) temp) c = B.m c)) ∧
       (∀ c : Int, 0 ≤ c → c < (B.size : Int) → temp c = B.m c →
          (l.foldl (muStep B) temp) c = B.m c) ∧
       (∀ i ∈ l, (l.foldl (muStep B) temp) ((i : Nat) : Int) =
          B.m ((i : Nat) : Int))) := by
  intro l
  induction l with
  | nil =>
    intro temp _ hinv
    exact ⟨hinv, fun c _ _ h => h, fun i hi => absurd hi (List.not_mem_nil i)⟩
  | cons a l ih =>
    intro temp hlt hinv
    rw [List.foldl_cons]
    have ha_lt : a < B.size := hlt a (List.mem_cons_self a l)
    have ha1 : (0 : Int) ≤ ((a : Nat) : Int) := by omega
    have ha2 : ((a : Nat) : Int) < (B.size : Int) := by omega
    by_cases hset : temp ((a : Nat) : Int) = UNUSED
    · obtain ⟨k, hk1, hk2, hk3⟩ :=
        exists_period B Hval Huniq ((a : Nat) : Int) ha1 ha2
      have hexr : ∃ r, r < B.size ∧
          B.m^[r] (B.m ((a : Nat) : Int)) = ((a : Nat) : Int) := by
        refine ⟨k - 1, by omega, ?_⟩
        have h0 : B.m^[(k - 1) + 1] ((a : Nat) : Int) = ((a : Nat) : Int) := by
          rw [show (k - 1) + 1 = k from by omega]
          exact hk3
        rw [Function.iterate_succ_apply] at h0
        exact h0
      have hw := muWalk_spec B Hval Hback ((a : Nat) : Int) B.size
        ((a : Nat) : Int) (B.m ((a : Nat) : Int)) temp ha1 ha2 rfl hexr
      have hstep : muStep B temp a =
          muWalk B ((a : Nat) : Int) B.size ((a : Nat) : Int)
            (B.m ((a : Nat) : Int)) temp := by
        unfold muStep
        rw [if_pos hset]
      rw [hstep]
      set temp2 := muWalk B ((a : Nat) : Int) B.size ((a : Nat) : Int)
        (B.m ((a : Nat) : Int)) temp with htemp2
      have hinv2 : ∀ c, temp2 c = UNUSED ∨
          (0 ≤ c ∧ c < (B.size : Int) ∧ temp2 c = B.m c) := by
        intro c
        rcases hw.1 c with h | h
        · rcases hinv c with h2 | h2
          · exact Or.inl (by rw [h]; exact h2)
          · exact Or.inr ⟨h2.1, h2.2.1, by rw [h]; exact h2.2.2⟩
        · exact Or.inr h
      have hpers2 : ∀ c : Int, 0 ≤ c → c < (B.size : Int) →
          temp c = B.m c → temp2 c = B.m c := by
        intro c h1 h2 h3
        rcases hw.1 c with h | h
        · rw [h]
          exact h3
        · exact h.2.2
      have hih := ih temp2 (fun i hi => hlt i (List.mem_cons_of_mem a hi)) hinv2
      refine ⟨hih.1, ?_, ?_⟩
      · intro c h1 h2 h3
        exact hih.2.1 c h1 h2 (hpers2 c h1 h2 h3)
      · intro i hi
        rcases List.mem_cons.mp hi with heq | hi2
        · subst heq
          exact hih.2.1 _ ha1 ha2 hw.2
        · exact hih.2.2 i hi2
    · have hstep : muStep B temp a = temp := by
        unfold muStep
        rw [if_neg hset]
      rw [hstep]
      have hih := ih temp (fun i hi => hlt i (List.mem_cons_of_mem a hi)) hinv
      refine ⟨hih.1, hih.2.1, ?_⟩
      intro i hi
      rcases List.mem_cons.mp hi with heq | hi2
      · subst heq
        rcases hinv ((i : Nat) : Int) with h | h
        · exact absurd h hset
        · exact hih.2.1 _ ha1 ha2 h.2.2
      · exact hih.2.2 i hi2

lemma tourney_undirected_facts (b : Board) (hu : b.IsUndirected = true)
    (ht : IsTourney b = true) :
    (∀ x : Int, 0 ≤ x → x < (b.size : Int) →
      0 ≤ b.m x ∧ b.m x < (b.size : Int)) ∧
    (∀ c : Int, 0 ≤ c → c < (b.size : Int) →
      (List.range b.size).countP (fun i => b.m ((i : Nat) : Int) == c) = 1) := by
  have hchar := tourney_characterization_aux b
  have hall : allCellsUsed b = true := by
    cases h : allCellsUsed b with
    | false =>
      rw [hchar.1 h] at ht
      exact absurd ht (by decide)
    | true => rfl
  have hdeg := (hchar.2 hall).mp ht
  have hallU : ∀ i ∈ List.range b.size,
      CellIndexInRange b (b.m ((i : Nat) : Int)) = true := by
    have h2 : allCellsUsed b = true := hall
    unfold allCellsUsed at h2
    rw [if_pos hu] at h2
    exact List.all_eq_true.mp h2
  constructor
  · intro x h1 h2
    have hx : x.toNat ∈ List.range b.size := by
      rw [List.mem_range]
      omega
    have h3 := hallU x.toNat hx
    rw [show ((x.toNat : Nat) : Int) = x from Int.toNat_of_nonneg h1] at h3
    exact of_decide_eq_true h3
  · intro c h1 h2
    have hd := hdeg c.toNat (by rw [List.mem_range]; omega)
    rw [show ((c.toNat : Nat) : Int) = c from Int.toNat_of_nonneg h1] at hd
    unfold tourneyDeg at hd
    rw [if_pos hu, countP_range_cast b.size c, if_pos ⟨h1, h2⟩] at hd
    omega

lemma tourney_undirected_inj (b : Board)
    (hcnt : ∀ c : Int, 0 ≤ c → c < (b.size : Int) →
      (List.range b.size).countP (fun i => b.m ((i : Nat) : Int) == c) = 1)
    (Hval : ∀ x : Int, 0 ≤ x → x < (b.size : Int) →
      0 ≤ b.m x ∧ b.m x < (b.size : Int)) :
    ∀ x y : Int, 0 ≤ x → x < (b.size : Int) → 0 ≤ y → y < (b.size : Int) →
      b.m x = b.m y → x = y := by
  intro x y hx1 hx2 hy1 hy2 hxy
  have hc := Hval x hx1 hx2
  obtain ⟨a, ha, hpa, huni⟩ := countP_eq_one_exists _ _ (hcnt (b.m x) hc.1 hc.2)
  have e1 := huni x.toNat (by rw [List.mem_range]; omega) (by
    rw [show ((x.toNat : Nat) : Int) = x from Int.toNat_of_nonneg hx1]
    exact beq_iff_eq.mpr rfl)
  have e2 := huni y.toNat (by rw [List.mem_range]; omega) (by
    rw [show ((y.toNat : Nat) : Int) = y from Int.toNat_of_nonneg hy1]
    exact beq_iff_eq.mpr hxy.symm)
  omega

lemma makeDirected_isUndirected_false (b : Board) (hu : b.IsUndirected = true) :
    (MakeDirected b).IsUndirected = false := by
  unfold MakeDirected
  rw [if_pos hu]
  rfl

lemma makeDirected_pre (b : Board) (hu : b.IsUndirected = true)
    (Hval : ∀ x : Int, 0 ≤ x → x < (b.size : Int) →
      0 ≤ b.m x ∧ b.m x < (b.size : Int))
    (Huniq : ∀ x y : Int, 0 ≤ x → x < (b.size : Int) → 0 ≤ y →
      y < (b.size : Int) → b.m x = b.m y → x = y)
    (hcnt : ∀ c : Int, 0 ≤ c → c < (b.size : Int) →
      (List.range b.size).countP (fun i => b.m ((i : Nat) : Int) == c) = 1) :
    ∀ y : Int, 0 ≤ y → y < (b.size : Int) →
      0 ≤ m2get (MakeDirected b) y ∧
      m2get (MakeDirected b) y < (b.size : Int) ∧
      b.m (m2get (MakeDirected b) y) = y := by
  intro y h1 h2
  obtain ⟨a, ha, hpa, _⟩ := countP_eq_one_exists _ _ (hcnt y h1 h2)
  have ha2 := List.mem_range.mp ha
  have hx : b.m ((a : Nat) : Int) = y := beq_iff_eq.mp hpa
  have hb := makeDirected_back b hu Hval Huniq ((a : Nat) : Int)
    (by omega) (by omega)
  rw [hx] at hb
  rw [hb]
  exact ⟨by omega, by omega, hx⟩

lemma makeDirected_tourney (b : Board) (hu : b.IsUndirected = true)
    (Hval : ∀ x : Int, 0 ≤ x → x < (b.size : Int) →
      0 ≤ b.m x ∧ b.m x < (b.size : Int))
    (Huniq : ∀ x y : Int, 0 ≤ x → x < (b.size : Int) → 0 ≤ y →
      y < (b.size : Int) → b.m x = b.m y → x = y)
    (hcnt : ∀ c : Int, 0 ≤ c → c < (b.size : Int) →
      (List.range b.size).countP (fun i => b.m ((i : Nat) : Int) == c) = 1) :
    IsTourney (MakeDirected b) = true := by
  have hBsize := makeDirected_size b hu
  have hBm := makeDirected_m b hu
  have hBund := makeDirected_isUndirected_false b hu
  have hpre := makeDirected_pre b hu Hval Huniq hcnt
  refine ((tourney_characterization_aux (MakeDirected b)).2 ?_).mpr ?_
  · unfold allCellsUsed
    rw [if_neg (by rw [hBund]; decide), List.all_eq_true]
    intro i hi
    have hi2 : i < b.size := by
      rw [← hBsize]
      exact List.mem_range.mp hi
    rw [Bool.and_eq_true]
    constructor
    · unfold CellIndexInRange
      apply decide_eq_true
      rw [hBm, hBsize]
      exact Hval ((i : Nat) : Int) (by omega) (by omega)
    · unfold CellIndexInRange
      apply decide_eq_true
      rw [hBsize]
      have h3 := hpre ((i : Nat) : Int) (by omega) (by omega)
      exact ⟨h3.1, h3.2.1⟩
  · intro i hi
    have hi2 : i < b.size := by
      rw [← hBsize]
      exact List.mem_range.mp hi
    unfold tourneyDeg
    rw [if_neg (by rw [hBund]; decide)]
    have hmi := Hval ((i : Nat) : Int) (by omega) (by omega)
    have c1 : (List.range (MakeDirected b).size).countP
        (fun i2 => (MakeDirected b).m ((i2 : Nat) : Int) == ((i : Nat) : Int))
        = 1 := by
      rw [hBsize, countP_congr_mem _ _
        (fun i2 => b.m ((i2 : Nat) : Int) == ((i : Nat) : Int))
        (fun a _ => by rw [hBm])]
      exact hcnt ((i : Nat) : Int) (by omega) (by omega)
    have c2 : (List.range (MakeDirected b).size).countP
        (fun i2 => m2get (MakeDirected b) ((i2 : Nat) : Int) ==
          ((i : Nat) : Int)) = 1 := by
      rw [hBsize, countP_congr_mem _ _
        (fun i2 => ((i2 : Nat) : Int) == b.m ((i : Nat) : Int)) ?_]
      · rw [countP_range_cast, if_pos hmi]
      · intro a ha
        show (m2get (MakeDirected b) ((a : Nat) : Int) == ((i : Nat) : Int)) =
          (((a : Nat) : Int) == b.m ((i : Nat) : Int))
        have haR := List.mem_range.mp ha
        by_cases h : m2get (MakeDirected b) ((a : Nat) : Int) = ((i : Nat) : Int)
        · have hp := hpre ((a : Nat) : Int) (by omega) (by omega)
          have h3 : b.m ((i : Nat) : Int) = ((a : Nat) : Int) := by
            have h4 := hp.2.2
            rw [h] at h4
            exact h4
          rw [show (m2get (MakeDirected b) ((a : Nat) : Int) ==
                ((i : Nat) : Int)) = true from beq_iff_eq.mpr h,
              show (((a : Nat) : Int) == b.m ((i : Nat) : Int)) = true from
                beq_iff_eq.mpr h3.symm]
        · have h2 : ¬(((a : Nat) : Int) = b.m ((i : Nat) : Int)) := by
            intro he
            apply h
            have hbb := makeDirected_back b hu Hval Huniq ((i : Nat) : Int)
              (by omega) (by omega)
            rw [he]
            exact hbb
          cases hb1 : (m2get (MakeDirected b) ((a : Nat) : Int) ==
              ((i : Nat) : Int)) with
          | true => exact absurd (beq_iff_eq.mp hb1) h
          | false =>
            cases hb2 : (((a : Nat) : Int) == b.m ((i : Nat) : Int)) with
            | true => exact absurd (beq_iff_eq.mp hb2) h2
            | false => rfl
    rw [c1, c2]

/-- C3.  On an undirected board satisfying `IsTourney`, `MakeDirected`
followed by `MakeUndirected` yields an undirected board again, the primary
table is unchanged on every valid cell (so the undirected edge set is
conserved), and `IsTourney` still holds on the result. -/
theorem C3_roundtrip (b : Board) (hu : b.IsUndirected = true)
    (ht : IsTourney b = true) :
    (MakeUndirected (MakeDirected b)).IsUndirected = true ∧
    (∀ c : Int, CellIndexInRange b c = true →
      (MakeUndirected (MakeDirected b)).m c = b.m c) ∧
    IsTourney (MakeUndirected (MakeDirected b)) = true := by
  obtain ⟨Hval, hcnt⟩ := tourney_undirected_facts b hu ht
  have Huniq := tourney_undirected_inj b hcnt Hval
  have hBsize := makeDirected_size b hu
  have hBm := makeDirected_m b hu
  have hBdir := makeDirected_isDirected b hu
  have hBtourney := makeDirected_tourney b hu Hval Huniq hcnt
  have hBval : ∀ x : Int, 0 ≤ x → x < ((MakeDirected b).size : Int) →
      0 ≤ (MakeDirected b).m x ∧
        (MakeDirected b).m x < ((MakeDirected b).size : Int) := by
    intro x h1 h2
    rw [hBm, hBsize]
    rw [hBsize] at h2
    exact Hval x h1 h2
  have hBback : ∀ x : Int, 0 ≤ x → x < ((MakeDirected b).size : Int) →
      m2get (MakeDirected b) ((MakeDirected b).m x) = x := by
    intro x h1 h2
    rw [hBm]
    rw [hBsize] at h2
    exact makeDirected_back b hu Hval Huniq x h1 h2
  have hBuniq : ∀ x y : Int, 0 ≤ x → x < ((MakeDirected b).size : Int) →
      0 ≤ y → y < ((MakeDirected b).size : Int) →
      (MakeDirected b).m x = (MakeDirected b).m y → x = y := by
    intro x y h1 h2 h3 h4 h5
    rw [hBsize] at h2 h4
    rw [hBm] at h5
    exact Huniq x y h1 h2 h3 h4 h5
  obtain ⟨F, hF⟩ : ∃ F, (List.range (MakeDirected b).size).foldl
      (muStep (MakeDirected b)) (fun _ => UNUSED) = F := ⟨_, rfl⟩
  have hMU : MakeUndirected (MakeDirected b) =
      { MakeDirected b with m := F, m2 := none } := by
    unfold MakeUndirected
    rw [if_pos ⟨hBdir, hBtourney⟩, hF]
  have hfold := muFold_spec (MakeDirected b) hBval hBback hBuniq
    (List.range (MakeDirected b).size) (fun _ => UNUSED)
    (fun i hi => List.mem_range.mp hi) (fun c => Or.inl rfl)
  rw [hF] at hfold
  have hcov : ∀ c : Int, 0 ≤ c → c < (b.size : Int) → F c = b.m c := by
    intro c h1 h2
    have h3 := hfold.2.2 c.toNat (by rw [List.mem_range, hBsize]; omega)
    rw [show ((c.toNat : Nat) : Int) = c from Int.toNat_of_nonneg h1] at h3
    rw [h3, hBm]
  have hRsize : ({ MakeDirected b with m := F, m2 := none } : Board).size
      = b.size := by
    rw [show ({ MakeDirected b with m := F, m2 := none } : Board).size
      = (MakeDirected b).size from rfl, hBsize]
  refine ⟨?_, ?_, ?_⟩
  · rw [hMU]
    rfl
  · intro c hc
    have hcv := of_decide_eq_true hc
    rw [hMU]
    exact hcov c hcv.1 hcv.2
  · rw [hMU]
    have hRund : ({ MakeDirected b with m := F, m2 := none } : Board).IsUndirected
        = true := rfl
    refine ((tourney_characterization_aux _).2 ?_).mpr ?_
    · unfold allCellsUsed
      rw [if_pos hRund, List.all_eq_true]
      intro i hi
      have hi2 : i < b.size := by
        have h4 := List.mem_range.mp hi
        rw [hRsize] at h4
        exact h4
      show CellIndexInRange { MakeDirected b with m := F, m2 := none }
        (F ((i : Nat) : Int)) = true
      unfold CellIndexInRange
      apply decide_eq_true
      rw [hRsize, hcov ((i : Nat) : Int) (by omega) (by omega)]
      exact Hval ((i : Nat) : Int) (by omega) (by omega)
    · intro i hi
      have hi2 : i < b.size := by
        have h4 := List.mem_range.mp hi
        rw [hRsize] at h4
        exact h4
      unfold tourneyDeg
      rw [if_pos hRund, hRsize]
      rw [countP_range_cast, if_pos ⟨by omega, by omega⟩]
      rw [countP_congr_mem _ _
        (fun i2 => b.m ((i2 : Nat) : Int) == ((i : Nat) : Int)) ?_]
      · rw [hcnt ((i : Nat) : Int) (by omega) (by omega)]
      · intro a ha
        have haR := List.mem_range.mp ha
        show (F ((a : Nat) : Int) == ((i : Nat) : Int)) =
          (b.m ((a : Nat) : Int) == ((i : Nat) : Int))
        rw [hcov ((a : Nat) : Int) (by omega) (by omega)]

/-- Witness for C3 at the 2-cycle tourney board `bPair`. -/
theorem C3_roundtrip_witness :
    (MakeUndirected (MakeDirected bPair)).IsUndirected = true ∧
      (MakeUndirected (MakeDirected bPair)).m 0 = bPair.m 0 ∧
      IsTourney (MakeUndirected (MakeDirected bPair)) = true :=
  have h := C3_roundtrip bPair (by decide) (by decide)
  ⟨h.1, h.2.1 0 (by decide), h.2.2⟩
